import Mathlib

/-!
# SynchroCap — verification of the synchronized capture-and-storage pipeline

Shallow embedding of the SRAW recording pipeline
(`src/dev/tutorials/12_rec_raw/s12_rec4cams.py`) and the raw-file toolkit
(`src/dev/tutorials/13_raw_viewer/s13_raw_tool.py`).

Bytes are modelled as `Nat` (each produced byte is `< 256` by construction);
machine integers are `Nat`/`Int` with explicit `% 2^w` where the Python
`struct` packing wraps or requires a range.  Fallible code returns
`Option`/`Except`.  Stateful loops are translated into structural
recursions over the input the Python loop consumes.
-/

namespace SynchroCap

/-! ## Little-endian byte codec (models Python `struct.pack`/`unpack` with
format `<` on fields `I`, `H`, `Q`, `q`). -/

/-- `encLE k n` is the `k`-byte little-endian encoding of `n % 256^k`,
as produced by `struct.pack` for an in-range value. -/
def encLE : Nat → Nat → List Nat
  | 0, _ => []
  | k + 1, n => n % 256 :: encLE k (n / 256)

/-- Little-endian decoding of a byte list (`struct.unpack` for `I`/`H`/`Q`). -/
def decLE : List Nat → Nat
  | [] => 0
  | b :: bs => b + 256 * decLE bs

/-- Two's-complement encoding of a signed 64-bit value
(`struct.pack('<q', z)` packs `z mod 2^64` for `-2^63 ≤ z < 2^63`). -/
def encI64 (z : Int) : List Nat :=
  encLE 8 (z.emod (2 ^ 64)).toNat

/-- Decoding of a signed little-endian 64-bit field (`struct.unpack('<q', ·)`). -/
def decI64 (bs : List Nat) : Int :=
  let n := decLE bs
  if n < 2 ^ 63 then (n : Int) else (n : Int) - 2 ^ 64

@[simp] theorem encLE_length (k n : Nat) : (encLE k n).length = k := by
  induction k generalizing n with
  | zero => rfl
  | succ k ih => simp [encLE, ih]

theorem decLE_encLE (k n : Nat) : decLE (encLE k n) = n % 256 ^ k := by
  induction k generalizing n with
  | zero => simp [encLE, decLE, Nat.mod_one]
  | succ k ih =>
    simp only [encLE, decLE, ih]
    rw [pow_succ', Nat.mod_mul]

@[simp] theorem encI64_length (z : Int) : (encI64 z).length = 8 := by
  simp [encI64]

theorem decI64_encI64 (z : Int) (hlo : -(2 ^ 63) ≤ z) (hhi : z < 2 ^ 63) :
    decI64 (encI64 z) = z := by
  have hmod : (0 : Int) ≤ z.emod (2 ^ 64) := Int.emod_nonneg z (by norm_num)
  have hmodlt : z.emod (2 ^ 64) < 2 ^ 64 := Int.emod_lt_of_pos z (by norm_num)
  rw [encI64, decI64, decLE_encLE]
  have htn : ((z.emod (2 ^ 64)).toNat : Int) = z.emod (2 ^ 64) :=
    Int.toNat_of_nonneg hmod
  have hsmall : (z.emod (2 ^ 64)).toNat % 256 ^ 8 = (z.emod (2 ^ 64)).toNat := by
    apply Nat.mod_eq_of_lt
    have h2 : ((z.emod (2 ^ 64)).toNat : Int) < 2 ^ 64 := by rw [htn]; exact hmodlt
    have h3 : (256 : Nat) ^ 8 = 2 ^ 64 := by norm_num
    rw [h3]
    exact_mod_cast h2
  rw [hsmall]
  have hcases : z.emod (2 ^ 64) = z ∨ z.emod (2 ^ 64) = z + 2 ^ 64 := by
    rcases le_or_lt 0 z with hz | hz
    · left
      exact Int.emod_eq_of_lt hz (by norm_num at hhi ⊢; omega)
    · right
      have hdvd : (z + 2 ^ 64).emod (2 ^ 64) = z.emod (2 ^ 64) := by
        have h4 := Int.add_mul_emod_self_left (a := z) (b := 2 ^ 64) (c := 1)
        rw [mul_one] at h4
        exact h4
      rw [← hdvd]
      exact Int.emod_eq_of_lt (by norm_num at hlo ⊢; omega) (by omega)
  rcases hcases with h | h
  · have h5 : ((z.emod (2 ^ 64)).toNat : Int) < 2 ^ 63 := by rw [htn, h]; exact hhi
    have hlt : (z.emod (2 ^ 64)).toNat < 2 ^ 63 := by exact_mod_cast h5
    simp only [if_pos hlt]
    omega
  · have h5 : ¬ ((z.emod (2 ^ 64)).toNat : Int) < 2 ^ 63 := by
      rw [htn, h]; norm_num at hlo ⊢; omega
    have hge : ¬ (z.emod (2 ^ 64)).toNat < 2 ^ 63 := by
      intro hc
      exact h5 (by exact_mod_cast hc)
    simp only [if_neg hge]
    omega

/-! ## SRAW serialization (s12_rec4cams.py)

`write_file_header` / `write_frame_header` pack with
`struct.pack('<4sI16sqHHHH', ...)` resp. `struct.pack('<4sIQq', ...)`.
We model the bytes each call appends to the output file. -/

/-- ASCII bytes of the magic `b'SRAW'`. -/
def SRAW_MAGIC : List Nat := [0x53, 0x52, 0x41, 0x57]

/-- ASCII bytes of the magic `b'FRAM'`. -/
def FRAM_MAGIC : List Nat := [0x46, 0x52, 0x41, 0x4D]

/-- `SRAW_VERSION = 1`. -/
def SRAW_VERSION : Nat := 1

/-- `PIXEL_FORMAT_BAYER_GR8 = 0`. -/
def PIXEL_FORMAT_BAYER_GR8 : Nat := 0

/-- `DEFAULT_FRAMES_PER_FILE = 1000`. -/
def DEFAULT_FRAMES_PER_FILE : Nat := 1000

/-- Camera-serial field: `serial.encode('ascii')[:15].ljust(16, b'\x00')` —
first 15 bytes of the serial, NUL-padded to 16 bytes. -/
def padSerial (serial : List Nat) : List Nat :=
  serial.take 15 ++ List.replicate (16 - (serial.take 15).length) 0

/-- Bytes written by `write_file_header(file, serial, recording_start_ns,
width, height, pixel_format)`: `struct.pack('<4sI16sqHHHH', SRAW_MAGIC,
SRAW_VERSION, serial_bytes, recording_start_ns, width, height, pixel_format, 0)`. -/
def write_file_header (serial : List Nat) (recording_start_ns : Int)
    (width height pixel_format : Nat) : List Nat :=
  SRAW_MAGIC ++ encLE 4 SRAW_VERSION ++ padSerial serial ++
    encI64 recording_start_ns ++ encLE 2 width ++ encLE 2 height ++
    encLE 2 pixel_format ++ encLE 2 0

/-- Bytes written by `write_frame_header(file, payload_size, frame_index,
timestamp_ns)`: `struct.pack('<4sIQq', FRAM_MAGIC, payload_size,
frame_index, timestamp_ns)`. -/
def write_frame_header (payload_size frame_index : Nat) (timestamp_ns : Int) :
    List Nat :=
  FRAM_MAGIC ++ encLE 4 payload_size ++ encLE 8 frame_index ++ encI64 timestamp_ns

@[simp] theorem padSerial_length (s : List Nat) : (padSerial s).length = 16 := by
  simp only [padSerial, List.length_append, List.length_replicate]
  have h : (s.take 15).length ≤ 15 := by
    simp [List.length_take_le 15 s]
  omega

@[simp] theorem write_file_header_length (s : List Nat) (t : Int) (w h pf : Nat) :
    (write_file_header s t w h pf).length = 40 := by
  simp [write_file_header, SRAW_MAGIC]

@[simp] theorem write_frame_header_length (ps fi : Nat) (t : Int) :
    (write_frame_header ps fi t).length = 24 := by
  simp [write_frame_header, FRAM_MAGIC]

/-! ## The raw recording loop (`record_raw_frames`, raw mode)

The worker loop pops frames and, in raw mode, writes them into split
`.raw` files: a new file is opened when no file is open yet or when
`frames_per_file > 0 and frame_count > 0 and frame_count % frames_per_file == 0`;
the new file gets a `FileHeader` whose `recording_start_ns` is the
*current frame's* timestamp, and the frame is then written as
`FrameHeader ++ payload` with `frame_index = frame_count`.
We model the frames the loop processes as an input list and produce the
list of `(start_frame, file bytes)` pairs the loop creates
(`make_raw_split_filename` embeds `start_frame` in the file name). -/

/-- One frame as popped from the device queue: its device timestamp and
raw payload bytes (`arr.tobytes()`). -/
structure InFrame where
  timestamp_ns : Int
  payload : List Nat
  deriving Repr, DecidableEq

/-- Bytes appended for one frame: `write_frame_header(file, payload_size,
frame_count, timestamp)` followed by the payload, with
`payload_size = len(payload)`. -/
def frameRecBytes (frame_index : Nat) (f : InFrame) : List Nat :=
  write_frame_header f.payload.length frame_index f.timestamp_ns ++ f.payload

/-- Recording parameters fixed per camera (serial, width, height; the
pixel format written is `PIXEL_FORMAT_BAYER_GR8`). -/
structure CamParams where
  serial : List Nat
  width : Nat
  height : Nat
  deriving Repr

/-- File-header bytes for a file opened at the frame with timestamp `ts`. -/
def newFileBytes (p : CamParams) (ts : Int) : List Nat :=
  write_file_header p.serial ts p.width p.height PIXEL_FORMAT_BAYER_GR8

/-- The writing loop after the first file has been opened: `count` is the
running `frame_count`, `cur = (current_file_start_frame, bytes written so
far to the open file)`.  Mirrors the split condition
`frames_per_file > 0 and frame_count > 0 and frame_count % frames_per_file == 0`
(here `count > 0` always holds). -/
def rawLoop (p : CamParams) (frames_per_file : Nat) :
    List InFrame → Nat → Nat × List Nat → List (Nat × List Nat)
  | [], _, cur => [cur]
  | f :: rest, count, cur =>
    if frames_per_file > 0 ∧ count % frames_per_file = 0 then
      cur :: rawLoop p frames_per_file rest (count + 1)
        (count, newFileBytes p f.timestamp_ns ++ frameRecBytes count f)
    else
      rawLoop p frames_per_file rest (count + 1)
        (cur.1, cur.2 ++ frameRecBytes count f)

/-- `record_raw_frames` (raw mode, all I/O succeeding): processes the
popped frames in order and returns the split files as
`(start_frame, bytes)` pairs, in creation order. -/
def record_raw_frames (p : CamParams) (frames_per_file : Nat) :
    List InFrame → List (Nat × List Nat)
  | [] => []
  | f :: rest =>
      rawLoop p frames_per_file rest 1
        (0, newFileBytes p f.timestamp_ns ++ frameRecBytes 0 f)

/-! ## The SRAW reader (s13_raw_tool.py)

`read_frame_header` reads 24 bytes and returns `None` when fewer than 24
bytes remain; `iter_frame_infos` repeatedly reads a header, yields a
`FrameInfo`, and seeks `payload_size` bytes forward (a Python seek past
end-of-file succeeds silently); `read_frame_payload` additionally reads
the payload and raises `ValueError` on a short read.  A file handle
positioned after the `FileHeader` is modelled as the remaining byte list
(with the absolute offset carried where `f.tell()` is used). -/

/-- Decoded fields of `read_frame_header` (without the magic check, which
`iter_frame_infos` never performs): `struct.unpack('<4sIQq', data)`. -/
structure FrameHeader where
  magic : List Nat
  payload_size : Nat
  frame_index : Nat
  timestamp_ns : Int
  deriving Repr, DecidableEq

/-- `read_frame_header(f)`: returns `none` when fewer than
`FRAME_HEADER_SIZE = 24` bytes remain, else the unpacked header.
Also returns the rest of the stream (the file position advances). -/
def read_frame_header (bs : List Nat) : Option (FrameHeader × List Nat) :=
  if bs.length < 24 then none
  else
    some (⟨bs.take 4,
           decLE ((bs.drop 4).take 4),
           decLE ((bs.drop 8).take 8),
           decI64 ((bs.drop 16).take 8)⟩,
          bs.drop 24)

/-- One entry yielded by `iter_frame_infos`. -/
structure FrameInfo where
  frame_index : Nat
  timestamp_ns : Int
  payload_size : Nat
  file_offset : Nat
  deriving Repr, DecidableEq

/-- `iter_frame_infos(f)` starting at absolute offset `off`: while a full
24-byte header can be read, yield a `FrameInfo` and seek `payload_size`
bytes forward; fewer than 24 remaining bytes end the iteration (the
normal end-of-stream), and the seek succeeds even past end-of-file. -/
def iter_frame_infos (off : Nat) (bs : List Nat) : List FrameInfo :=
  match h : read_frame_header bs with
  | none => []
  | some (fh, rest) =>
      ⟨fh.frame_index, fh.timestamp_ns, fh.payload_size, off⟩ ::
        iter_frame_infos (off + 24 + fh.payload_size) (rest.drop fh.payload_size)
termination_by bs.length
decreasing_by
  simp only [read_frame_header] at h
  split at h
  · exact absurd h (by simp)
  · rename_i hlen
    simp only [Option.some.injEq, Prod.mk.injEq] at h
    obtain ⟨-, hrest⟩ := h
    subst hrest
    simp only [List.drop_drop, List.length_drop]
    omega

/-- A frame as read back: header fields plus the payload bytes actually
taken from the stream.  Used for the writer/reader round trip. -/
structure OutFrame where
  frame_index : Nat
  timestamp_ns : Int
  payload : List Nat
  deriving Repr, DecidableEq

/-- Reading every frame of a file body *with* its payload: at each step
read a 24-byte header (end of stream if fewer remain), take
`payload_size` payload bytes, continue after them.  This is
`iter_frame_infos` combined with the payload read that `encode_frames` /
`read_frame_payload` perform at the recorded offset. -/
def readFrames (bs : List Nat) : List OutFrame :=
  match h : read_frame_header bs with
  | none => []
  | some (fh, rest) =>
      ⟨fh.frame_index, fh.timestamp_ns, rest.take fh.payload_size⟩ ::
        readFrames (rest.drop fh.payload_size)
termination_by bs.length
decreasing_by
  simp only [read_frame_header] at h
  split at h
  · exact absurd h (by simp)
  · rename_i hlen
    simp only [Option.some.injEq, Prod.mk.injEq] at h
    obtain ⟨-, hrest⟩ := h
    subst hrest
    simp only [List.drop_drop, List.length_drop]
    omega

/-- Reading a whole `.raw` file: skip the 40-byte `FileHeader`
(`read_file_header`) and read the frames. -/
def readFile (bs : List Nat) : List OutFrame :=
  readFrames (bs.drop 40)

/-- `read_frame_payload(f, frame_index)`: skip `frame_index` frames, then
read one header and its payload; a missing header raises
"out of range" and a short payload read raises "Unexpected EOF". -/
def read_frame_payload (frame_index : Nat) (bs : List Nat) :
    Except String (FrameHeader × List Nat) :=
  match frame_index with
  | 0 =>
      match read_frame_header bs with
      | none => .error "Frame out of range"
      | some (fh, rest) =>
          if (rest.take fh.payload_size).length < fh.payload_size then
            .error "Unexpected EOF reading payload"
          else
            .ok (fh, rest.take fh.payload_size)
  | n + 1 =>
      match read_frame_header bs with
      | none => .error "Frame out of range"
      | some (fh, rest) => read_frame_payload n (rest.drop fh.payload_size)

/-! ## Round-trip lemmas -/

/-- A frame the pipeline can actually pack: `struct.pack` requires
`payload_size < 2^32` (`I`) and `-2^63 ≤ timestamp_ns < 2^63` (`q`). -/
def FrameOK (f : InFrame) : Prop :=
  f.payload.length < 2 ^ 32 ∧ -(2 ^ 63) ≤ f.timestamp_ns ∧ f.timestamp_ns < 2 ^ 63

instance (f : InFrame) : Decidable (FrameOK f) := by
  unfold FrameOK; infer_instance

theorem read_frame_header_append (ps fi : Nat) (t : Int) (tail : List Nat)
    (hps : ps < 2 ^ 32) (hfi : fi < 2 ^ 64)
    (hlo : -(2 ^ 63) ≤ t) (hhi : t < 2 ^ 63) :
    read_frame_header (write_frame_header ps fi t ++ tail) =
      some (⟨FRAM_MAGIC, ps, fi, t⟩, tail) := by
  have hlen : (write_frame_header ps fi t ++ tail).length = 24 + tail.length := by
    simp
  rw [read_frame_header, if_neg (by omega)]
  have hm : (FRAM_MAGIC : List Nat).length = 4 := by rfl
  have e1 : (write_frame_header ps fi t ++ tail).take 4 = FRAM_MAGIC := by
    rw [write_frame_header]
    simp only [List.append_assoc]
    exact List.take_left' hm
  have e2 : ((write_frame_header ps fi t ++ tail).drop 4).take 4 = encLE 4 ps := by
    rw [write_frame_header]
    simp only [List.append_assoc]
    rw [List.drop_left' hm]
    exact List.take_left' (encLE_length 4 ps)
  have e3 : ((write_frame_header ps fi t ++ tail).drop 8).take 8 = encLE 8 fi := by
    rw [write_frame_header]
    rw [show FRAM_MAGIC ++ encLE 4 ps ++ encLE 8 fi ++ encI64 t ++ tail
        = (FRAM_MAGIC ++ encLE 4 ps) ++ (encLE 8 fi ++ (encI64 t ++ tail)) by
      simp [List.append_assoc]]
    rw [List.drop_left' (by simp [hm])]
    exact List.take_left' (encLE_length 8 fi)
  have e4 : ((write_frame_header ps fi t ++ tail).drop 16).take 8 = encI64 t := by
    rw [write_frame_header]
    rw [show FRAM_MAGIC ++ encLE 4 ps ++ encLE 8 fi ++ encI64 t ++ tail
        = (FRAM_MAGIC ++ encLE 4 ps ++ encLE 8 fi) ++ (encI64 t ++ tail) by
      simp [List.append_assoc]]
    rw [List.drop_left' (by simp [hm])]
    exact List.take_left' (encI64_length t)
  have e5 : (write_frame_header ps fi t ++ tail).drop 24 = tail :=
    List.drop_left' (write_frame_header_length ps fi t)
  rw [e1, e2, e3, e4, e5, decLE_encLE, decLE_encLE, decI64_encI64 t hlo hhi]
  have h4 : (256 : Nat) ^ 4 = 2 ^ 32 := by norm_num
  have h8 : (256 : Nat) ^ 8 = 2 ^ 64 := by norm_num
  rw [h4, h8, Nat.mod_eq_of_lt hps, Nat.mod_eq_of_lt hfi]

theorem readFrames_of_none {bs : List Nat} (h : read_frame_header bs = none) :
    readFrames bs = [] := by
  rw [readFrames]
  split
  · rfl
  · rename_i fh rest heq
    rw [h] at heq
    exact absurd heq (by simp)

theorem readFrames_of_some {bs : List Nat} {fh : FrameHeader} {rest : List Nat}
    (h : read_frame_header bs = some (fh, rest)) :
    readFrames bs =
      ⟨fh.frame_index, fh.timestamp_ns, rest.take fh.payload_size⟩ ::
        readFrames (rest.drop fh.payload_size) := by
  rw [readFrames]
  split
  · rename_i heq
    rw [h] at heq
    exact absurd heq (by simp)
  · rename_i fh' rest' heq
    rw [h] at heq
    simp only [Option.some.injEq, Prod.mk.injEq] at heq
    obtain ⟨h1, h2⟩ := heq
    subst h1
    subst h2
    rfl

@[simp] theorem readFrames_nil : readFrames [] = [] :=
  readFrames_of_none (by rw [read_frame_header]; simp)

/-- Reading one serialized frame record off the front of a stream. -/
theorem readFrames_frameRec (i : Nat) (f : InFrame) (rest : List Nat)
    (hok : FrameOK f) (hi : i < 2 ^ 64) :
    readFrames (frameRecBytes i f ++ rest) =
      ⟨i, f.timestamp_ns, f.payload⟩ :: readFrames rest := by
  obtain ⟨hps, hlo, hhi⟩ := hok
  have hassoc : frameRecBytes i f ++ rest =
      write_frame_header f.payload.length i f.timestamp_ns ++ (f.payload ++ rest) := by
    simp [frameRecBytes, List.append_assoc]
  have h := read_frame_header_append f.payload.length i f.timestamp_ns
    (f.payload ++ rest) hps hi hlo hhi
  rw [hassoc, readFrames_of_some h]
  simp only [List.take_left, List.drop_left]

/-- Serialized frame records for consecutive frames starting at
`frame_index = i` (the body of one split file). -/
def chunkBytes : Nat → List InFrame → List Nat
  | _, [] => []
  | i, f :: fs => frameRecBytes i f ++ chunkBytes (i + 1) fs

/-- The frames as they should read back: positions become `frame_index`,
timestamps and payloads unchanged. -/
def indexFrames : Nat → List InFrame → List OutFrame
  | _, [] => []
  | i, f :: fs => ⟨i, f.timestamp_ns, f.payload⟩ :: indexFrames (i + 1) fs

theorem chunkBytes_append (i : Nat) (xs ys : List InFrame) :
    chunkBytes i (xs ++ ys) = chunkBytes i xs ++ chunkBytes (i + xs.length) ys := by
  induction xs generalizing i with
  | nil => simp [chunkBytes]
  | cons x xs ih =>
    simp only [List.cons_append, chunkBytes, List.append_eq, ih,
      List.append_assoc, List.length_cons]
    rw [show i + (xs.length + 1) = i + 1 + xs.length by omega]

theorem indexFrames_append (i : Nat) (xs ys : List InFrame) :
    indexFrames i (xs ++ ys) =
      indexFrames i xs ++ indexFrames (i + xs.length) ys := by
  induction xs generalizing i with
  | nil => simp [indexFrames]
  | cons x xs ih =>
    simp only [List.cons_append, indexFrames, List.append_eq, ih,
      List.length_cons]
    rw [show i + (xs.length + 1) = i + 1 + xs.length by omega]

theorem indexFrames_length (i : Nat) (fs : List InFrame) :
    (indexFrames i fs).length = fs.length := by
  induction fs generalizing i with
  | nil => rfl
  | cons f fs ih => simp [indexFrames, ih]

theorem indexFrames_map_index (i : Nat) (fs : List InFrame) :
    (indexFrames i fs).map (fun o => o.frame_index) = List.range' i fs.length := by
  induction fs generalizing i with
  | nil => rfl
  | cons f fs ih => simp [indexFrames, ih, List.range'_succ]

theorem indexFrames_map_timestamp (i : Nat) (fs : List InFrame) :
    (indexFrames i fs).map (fun o => o.timestamp_ns) =
      fs.map (fun f => f.timestamp_ns) := by
  induction fs generalizing i with
  | nil => rfl
  | cons f fs ih => simp [indexFrames, ih]

theorem indexFrames_map_payload (i : Nat) (fs : List InFrame) :
    (indexFrames i fs).map (fun o => o.payload) = fs.map (fun f => f.payload) := by
  induction fs generalizing i with
  | nil => rfl
  | cons f fs ih => simp [indexFrames, ih]

/-- Reading back the body of one split file recovers its frames. -/
theorem readFrames_chunkBytes (i : Nat) (fs : List InFrame)
    (hok : ∀ f ∈ fs, FrameOK f) (hub : i + fs.length ≤ 2 ^ 64) :
    readFrames (chunkBytes i fs) = indexFrames i fs := by
  induction fs generalizing i with
  | nil => simp [chunkBytes, indexFrames]
  | cons f fs ih =>
    simp only [chunkBytes, indexFrames]
    rw [readFrames_frameRec i f (chunkBytes (i + 1) fs)
      (hok f (by simp)) (by simp at hub; omega)]
    rw [ih (i + 1) (fun g hg => hok g (by simp [hg])) (by simp at hub; omega)]

/-- Dropping the 40 `FileHeader` bytes of a produced file leaves its body. -/
theorem readFile_newFile (p : CamParams) (ts : Int) (body : List Nat) :
    readFile (newFileBytes p ts ++ body) = readFrames body := by
  rw [readFile, List.drop_left' (by simp [newFileBytes])]

/-- Main loop invariant: reading all files the loop will produce, in
creation order, yields the frames already written to the open file
followed by the remaining frames, indexed consecutively. -/
theorem rawLoop_read (p : CamParams) (K : Nat) (rest : List InFrame) :
    ∀ (sf : Nat) (ts : Int) (written : List InFrame),
      (∀ f ∈ written, FrameOK f) → (∀ f ∈ rest, FrameOK f) →
      sf + written.length + rest.length ≤ 2 ^ 64 →
      ((rawLoop p K rest (sf + written.length)
          (sf, newFileBytes p ts ++ chunkBytes sf written)).map
            (fun fb => readFile fb.2)).flatten
        = indexFrames sf written ++ indexFrames (sf + written.length) rest := by
  induction rest with
  | nil =>
    intro sf ts written hw _ hub
    simp only [rawLoop, List.map_cons, List.map_nil, List.flatten_cons,
      List.flatten_nil, indexFrames, List.append_nil]
    rw [readFile_newFile, readFrames_chunkBytes sf written hw (by omega)]
  | cons f rest ih =>
    intro sf ts written hw hr hub
    have hf : FrameOK f := hr f (List.mem_cons_self f rest)
    have hr' : ∀ g ∈ rest, FrameOK g := fun g hg => hr g (List.mem_cons_of_mem f hg)
    have hub' : sf + written.length + rest.length + 1 ≤ 2 ^ 64 := by
      simp only [List.length_cons] at hub
      omega
    rw [rawLoop]
    split
    · have hone : frameRecBytes (sf + written.length) f =
          chunkBytes (sf + written.length) [f] := by
        simp [chunkBytes]
      have hw1 : ∀ g ∈ [f], FrameOK g := by
        intro g hg
        simp only [List.mem_singleton] at hg
        rw [hg]
        exact hf
      have ihx := ih (sf + written.length) f.timestamp_ns [f] hw1 hr'
        (by simp only [List.length_singleton]; omega)
      simp only [List.length_singleton] at ihx
      simp only [List.map_cons, List.flatten_cons, hone]
      rw [ihx, readFile_newFile, readFrames_chunkBytes sf written hw (by omega)]
      simp only [indexFrames, List.cons_append, List.nil_append]
    · have hw1 : ∀ g ∈ written ++ [f], FrameOK g := by
        intro g hg
        rcases List.mem_append.1 hg with h | h
        · exact hw g h
        · simp only [List.mem_singleton] at h
          rw [h]
          exact hf
      have ihx := ih sf ts (written ++ [f]) hw1 hr'
        (by simp only [List.length_append, List.length_singleton]; omega)
      simp only [List.length_append, List.length_singleton] at ihx
      have hchunk : (newFileBytes p ts ++ chunkBytes sf written) ++
          frameRecBytes (sf + written.length) f =
          newFileBytes p ts ++ chunkBytes sf (written ++ [f]) := by
        rw [chunkBytes_append]
        simp [chunkBytes, List.append_assoc]
      rw [show sf + (written.length + 1) = sf + written.length + 1 from by omega] at ihx
      rw [hchunk, ihx, indexFrames_append]
      simp only [indexFrames, List.length_singleton, List.append_assoc,
        List.cons_append, List.nil_append]

/-- Reading a whole recording back (files scanned in creation order)
recovers all frames with consecutive indices from 0. -/
theorem record_raw_frames_read (p : CamParams) (K : Nat) (frames : List InFrame)
    (hok : ∀ f ∈ frames, FrameOK f) (hub : frames.length ≤ 2 ^ 64) :
    ((record_raw_frames p K frames).map (fun fb => readFile fb.2)).flatten
      = indexFrames 0 frames := by
  cases frames with
  | nil => simp [record_raw_frames, indexFrames]
  | cons f rest =>
    rw [record_raw_frames]
    have hone : frameRecBytes 0 f = chunkBytes 0 [f] := by
      simp [chunkBytes]
    rw [hone]
    have h := rawLoop_read p K rest 0 f.timestamp_ns [f]
      (by
        intro g hg
        simp only [List.mem_singleton] at hg
        rw [hg]
        exact hok f (List.mem_cons_self f rest))
      (fun g hg => hok g (List.mem_cons_of_mem f hg))
      (by simp only [List.length_singleton, List.length_cons, List.length_nil]
            at hub ⊢
          omega)
    simp only [List.length_singleton, Nat.zero_add] at h
    rw [h]
    simp only [indexFrames, List.cons_append, List.nil_append, Nat.zero_add]

/-- Every file the loop produces is a 40-byte `FileHeader` followed by a
run of `FrameHeader ++ payload` records starting at its start frame. -/
theorem rawLoop_shape (p : CamParams) (K : Nat) (rest : List InFrame) :
    ∀ (sf : Nat) (ts : Int) (written : List InFrame),
      ∀ fb ∈ rawLoop p K rest (sf + written.length)
          (sf, newFileBytes p ts ++ chunkBytes sf written),
        ∃ ts' ws, fb.2 = newFileBytes p ts' ++ chunkBytes fb.1 ws := by
  induction rest with
  | nil =>
    intro sf ts written fb hfb
    simp only [rawLoop, List.mem_singleton] at hfb
    rw [hfb]
    exact ⟨ts, written, rfl⟩
  | cons f rest ih =>
    intro sf ts written fb hfb
    rw [rawLoop] at hfb
    split at hfb
    · rcases List.mem_cons.1 hfb with h | h
      · rw [h]
        exact ⟨ts, written, rfl⟩
      · have hone : frameRecBytes (sf + written.length) f =
            chunkBytes (sf + written.length) [f] := by
          simp [chunkBytes]
        rw [hone,
          show sf + written.length + 1
            = (sf + written.length) + [f].length from by simp] at h
        exact ih (sf + written.length) f.timestamp_ns [f] fb h
    · have hchunk : (newFileBytes p ts ++ chunkBytes sf written) ++
          frameRecBytes (sf + written.length) f =
          newFileBytes p ts ++ chunkBytes sf (written ++ [f]) := by
        rw [chunkBytes_append]
        simp [chunkBytes, List.append_assoc]
      rw [hchunk,
        show sf + written.length + 1 = sf + (written ++ [f]).length from by
          simp [Nat.add_assoc]] at hfb
      exact ih sf ts (written ++ [f]) fb hfb

/-- The first file the loop returns is the currently open one. -/
theorem rawLoop_head_fst (p : CamParams) (K : Nat) (rest : List InFrame) :
    ∀ (count : Nat) (cur : Nat × List Nat),
      ((rawLoop p K rest count cur).map Prod.fst).head? = some cur.1 := by
  induction rest with
  | nil => intro count cur; simp [rawLoop]
  | cons f rest ih =>
    intro count cur
    rw [rawLoop]
    split
    · simp
    · exact ih (count + 1) (cur.1, cur.2 ++ frameRecBytes count f)

/-- Start frames of the produced files are strictly increasing (so the
file names sort in creation order). -/
theorem rawLoop_fst_chain (p : CamParams) (K : Nat) (rest : List InFrame) :
    ∀ (count : Nat) (cur : Nat × List Nat), cur.1 < count →
      List.Chain' (· < ·) ((rawLoop p K rest count cur).map Prod.fst) := by
  induction rest with
  | nil => intro count cur _; simp [rawLoop]
  | cons f rest ih =>
    intro count cur hlt
    rw [rawLoop]
    split
    · simp only [List.map_cons]
      rw [List.chain'_cons']
      constructor
      · intro y hy
        rw [rawLoop_head_fst p K rest (count + 1)
          (count, newFileBytes p f.timestamp_ns ++ frameRecBytes count f)] at hy
        simp only [Option.mem_def, Option.some.injEq] at hy
        omega
      · exact ih (count + 1) (count, _) (by omega)
    · exact ih (count + 1) (cur.1, cur.2 ++ frameRecBytes count f) (by omega)

/-- Number of files the loop still produces, in closed form. -/
theorem rawLoop_length (p : CamParams) (K : Nat) (hK : 0 < K)
    (rest : List InFrame) :
    ∀ (m : Nat) (cur : Nat × List Nat),
      (rawLoop p K rest (m + 1) cur).length =
        1 + ((m + rest.length) / K - m / K) := by
  induction rest with
  | nil => intro m cur; simp [rawLoop]
  | cons f rest ih =>
    intro m cur
    rw [rawLoop]
    have hsucc : (m + 1) / K = m / K + if K ∣ m + 1 then 1 else 0 :=
      Nat.succ_div m K
    have hmono : (m + 1) / K ≤ (m + 1 + rest.length) / K :=
      Nat.div_le_div_right (by omega)
    split
    · rename_i hc
      have hdvd : K ∣ m + 1 := Nat.dvd_iff_mod_eq_zero.mpr hc.2
      rw [if_pos hdvd] at hsucc
      simp only [List.length_cons, ih]
      rw [show m + 1 + rest.length = m + (rest.length + 1) from by omega] at hmono ⊢
      omega
    · rename_i hc
      have hndvd : ¬ K ∣ m + 1 := by
        intro hd
        exact hc ⟨hK, Nat.dvd_iff_mod_eq_zero.mp hd⟩
      rw [if_neg hndvd] at hsucc
      simp only [List.length_cons, ih]
      rw [show m + 1 + rest.length = m + (rest.length + 1) from by omega] at hmono ⊢
      omega

/-- Closed form for the number of split files of a whole recording:
`1 + (N - 1) / K` files for `N ≥ 1` frames. -/
theorem record_raw_frames_length (p : CamParams) (K : Nat) (hK : 0 < K)
    (f : InFrame) (rest : List InFrame) :
    (record_raw_frames p K (f :: rest)).length = 1 + rest.length / K := by
  rw [record_raw_frames]
  have h := rawLoop_length p K hK rest 0
    (0, newFileBytes p f.timestamp_ns ++ frameRecBytes 0 f)
  simp only [Nat.zero_add, Nat.zero_div, Nat.sub_zero] at h
  exact h

/-! ## `read_file_header` (s13_raw_tool.py) -/

/-- Decoded `FileHeader` (`struct.unpack('<4sI16sqHHHH', data)`; the serial
is `serial_bytes.split(b'\x00')[0]`, i.e. the prefix before the first NUL). -/
structure FileHeader where
  magic : List Nat
  version : Nat
  camera_serial : List Nat
  recording_start_ns : Int
  width : Nat
  height : Nat
  pixel_format : Nat
  reserved : Nat
  deriving Repr, DecidableEq

/-- `read_file_header(f)`: raises `ValueError` ("File too small...") when
fewer than `FILE_HEADER_SIZE = 40` bytes remain, else unpacks the fields
at their offsets (magic 0, version 4, serial 8, start_ns 24, width 32,
height 34, pixel_format 36, reserved 38) and leaves the stream after
byte 40. -/
def read_file_header (bs : List Nat) : Except String (FileHeader × List Nat) :=
  if bs.length < 40 then
    .error "File too small for FileHeader"
  else
    .ok (⟨bs.take 4,
          decLE ((bs.drop 4).take 4),
          ((bs.drop 8).take 16).takeWhile (fun b => b != 0),
          decI64 ((bs.drop 24).take 8),
          decLE ((bs.drop 32).take 2),
          decLE ((bs.drop 34).take 2),
          decLE ((bs.drop 36).take 2),
          decLE ((bs.drop 38).take 2)⟩,
         bs.drop 40)

theorem takeWhile_append_replicate_zero (s : List Nat) (k : Nat)
    (hz : ∀ b ∈ s, b ≠ 0) :
    (s ++ List.replicate (k + 1) 0).takeWhile (fun b => b != 0) = s := by
  induction s with
  | nil => simp [List.replicate, List.takeWhile]
  | cons b s ih =>
    have hb : b ≠ 0 := hz b (List.mem_cons_self b s)
    simp only [List.cons_append, List.takeWhile]
    have hbne : (b != 0) = true := by
      simp [bne_iff_ne, hb]
    rw [hbne]
    simp only [cond_true, List.append_eq]
    rw [ih (fun c hc => hz c (List.mem_cons_of_mem b hc))]

/-- Decoding the NUL-padded serial field recovers the serial (serials are
short ASCII digit strings: no NUL bytes, at most 15 bytes). -/
theorem takeWhile_padSerial (s : List Nat) (hlen : s.length ≤ 15)
    (hz : ∀ b ∈ s, b ≠ 0) :
    (padSerial s).takeWhile (fun b => b != 0) = s := by
  rw [padSerial, List.take_of_length_le hlen]
  obtain ⟨k, hk⟩ : ∃ k, 16 - s.length = k + 1 := ⟨15 - s.length, by omega⟩
  rw [hk]
  exact takeWhile_append_replicate_zero s k hz

/-- Parsing a written `FileHeader` recovers every field. -/
theorem read_file_header_append (serial : List Nat) (ts : Int)
    (w h pf : Nat) (tail : List Nat)
    (hs : serial.length ≤ 15) (hz : ∀ b ∈ serial, b ≠ 0)
    (hlo : -(2 ^ 63) ≤ ts) (hhi : ts < 2 ^ 63)
    (hw : w < 2 ^ 16) (hh : h < 2 ^ 16) (hpf : pf < 2 ^ 16) :
    read_file_header (write_file_header serial ts w h pf ++ tail) =
      .ok (⟨SRAW_MAGIC, SRAW_VERSION, serial, ts, w, h, pf, 0⟩, tail) := by
  have hlen : (write_file_header serial ts w h pf ++ tail).length
      = 40 + tail.length := by simp
  rw [read_file_header, if_neg (by omega)]
  have hm : (SRAW_MAGIC : List Nat).length = 4 := by rfl
  have e1 : (write_file_header serial ts w h pf ++ tail).take 4 = SRAW_MAGIC := by
    rw [write_file_header]
    simp only [List.append_assoc]
    exact List.take_left' hm
  have e2 : ((write_file_header serial ts w h pf ++ tail).drop 4).take 4
      = encLE 4 SRAW_VERSION := by
    rw [write_file_header]
    simp only [List.append_assoc]
    rw [List.drop_left' hm]
    exact List.take_left' (encLE_length 4 SRAW_VERSION)
  have e3 : ((write_file_header serial ts w h pf ++ tail).drop 8).take 16
      = padSerial serial := by
    rw [write_file_header]
    rw [show SRAW_MAGIC ++ encLE 4 SRAW_VERSION ++ padSerial serial ++
          encI64 ts ++ encLE 2 w ++ encLE 2 h ++ encLE 2 pf ++ encLE 2 0 ++ tail
        = (SRAW_MAGIC ++ encLE 4 SRAW_VERSION) ++ (padSerial serial ++
          (encI64 ts ++ (encLE 2 w ++ (encLE 2 h ++ (encLE 2 pf ++
          (encLE 2 0 ++ tail)))))) by simp [List.append_assoc]]
    rw [List.drop_left' (by simp [hm])]
    exact List.take_left' (padSerial_length serial)
  have e4 : ((write_file_header serial ts w h pf ++ tail).drop 24).take 8
      = encI64 ts := by
    rw [write_file_header]
    rw [show SRAW_MAGIC ++ encLE 4 SRAW_VERSION ++ padSerial serial ++
          encI64 ts ++ encLE 2 w ++ encLE 2 h ++ encLE 2 pf ++ encLE 2 0 ++ tail
        = (SRAW_MAGIC ++ encLE 4 SRAW_VERSION ++ padSerial serial) ++
          (encI64 ts ++ (encLE 2 w ++ (encLE 2 h ++ (encLE 2 pf ++
          (encLE 2 0 ++ tail))))) by simp [List.append_assoc]]
    rw [List.drop_left' (by simp [hm])]
    exact List.take_left' (encI64_length ts)
  have e5 : ((write_file_header serial ts w h pf ++ tail).drop 32).take 2
      = encLE 2 w := by
    rw [write_file_header]
    rw [show SRAW_MAGIC ++ encLE 4 SRAW_VERSION ++ padSerial serial ++
          encI64 ts ++ encLE 2 w ++ encLE 2 h ++ encLE 2 pf ++ encLE 2 0 ++ tail
        = (SRAW_MAGIC ++ encLE 4 SRAW_VERSION ++ padSerial serial ++ encI64 ts) ++
          (encLE 2 w ++ (encLE 2 h ++ (encLE 2 pf ++
          (encLE 2 0 ++ tail)))) by simp [List.append_assoc]]
    rw [List.drop_left' (by simp [hm])]
    exact List.take_left' (encLE_length 2 w)
  have e6 : ((write_file_header serial ts w h pf ++ tail).drop 34).take 2
      = encLE 2 h := by
    rw [write_file_header]
    rw [show SRAW_MAGIC ++ encLE 4 SRAW_VERSION ++ padSerial serial ++
          encI64 ts ++ encLE 2 w ++ encLE 2 h ++ encLE 2 pf ++ encLE 2 0 ++ tail
        = (SRAW_MAGIC ++ encLE 4 SRAW_VERSION ++ padSerial serial ++ encI64 ts ++
          encLE 2 w) ++ (encLE 2 h ++ (encLE 2 pf ++ (encLE 2 0 ++ tail))) by
          simp [List.append_assoc]]
    rw [List.drop_left' (by simp [hm])]
    exact List.take_left' (encLE_length 2 h)
  have e7 : ((write_file_header serial ts w h pf ++ tail).drop 36).take 2
      = encLE 2 pf := by
    rw [write_file_header]
    rw [show SRAW_MAGIC ++ encLE 4 SRAW_VERSION ++ padSerial serial ++
          encI64 ts ++ encLE 2 w ++ encLE 2 h ++ encLE 2 pf ++ encLE 2 0 ++ tail
        = (SRAW_MAGIC ++ encLE 4 SRAW_VERSION ++ padSerial serial ++ encI64 ts ++
          encLE 2 w ++ encLE 2 h) ++ (encLE 2 pf ++ (encLE 2 0 ++ tail)) by
          simp [List.append_assoc]]
    rw [List.drop_left' (by simp [hm])]
    exact List.take_left' (encLE_length 2 pf)
  have e8 : ((write_file_header serial ts w h pf ++ tail).drop 38).take 2
      = encLE 2 0 := by
    rw [write_file_header]
    rw [show SRAW_MAGIC ++ encLE 4 SRAW_VERSION ++ padSerial serial ++
          encI64 ts ++ encLE 2 w ++ encLE 2 h ++ encLE 2 pf ++ encLE 2 0 ++ tail
        = (SRAW_MAGIC ++ encLE 4 SRAW_VERSION ++ padSerial serial ++ encI64 ts ++
          encLE 2 w ++ encLE 2 h ++ encLE 2 pf) ++ (encLE 2 0 ++ tail) by
          simp [List.append_assoc]]
    rw [List.drop_left' (by simp [hm])]
    exact List.take_left' (encLE_length 2 0)
  have e9 : (write_file_header serial ts w h pf ++ tail).drop 40 = tail :=
    List.drop_left' (write_file_header_length serial ts w h pf)
  rw [e1, e2, e3, e4, e5, e6, e7, e8, e9]
  rw [takeWhile_padSerial serial hs hz,
    decLE_encLE, decLE_encLE, decLE_encLE, decLE_encLE,
    decI64_encI64 ts hlo hhi]
  have h16 : (256 : Nat) ^ 2 = 2 ^ 16 := by norm_num
  rw [h16, Nat.mod_eq_of_lt hw, Nat.mod_eq_of_lt hh, Nat.mod_eq_of_lt hpf]
  rfl

/-- Every file of a produced recording starts with a written `FileHeader`
and continues with consecutive frame records. -/
theorem record_raw_frames_shape (p : CamParams) (K : Nat)
    (frames : List InFrame) :
    ∀ fb ∈ record_raw_frames p K frames,
      ∃ ts ws, fb.2 = write_file_header p.serial ts p.width p.height
          PIXEL_FORMAT_BAYER_GR8 ++ chunkBytes fb.1 ws := by
  cases frames with
  | nil => intro fb hfb; simp [record_raw_frames] at hfb
  | cons f rest =>
    intro fb hfb
    rw [record_raw_frames] at hfb
    have hone : frameRecBytes 0 f = chunkBytes 0 [f] := by
      simp [chunkBytes]
    rw [hone, show (1 : Nat) = 0 + [f].length from by simp] at hfb
    have h := rawLoop_shape p K rest 0 f.timestamp_ns [f] fb hfb
    obtain ⟨ts', ws, hws⟩ := h
    exact ⟨ts', ws, hws⟩

/-! ## Claim theorems: C2 (round trip / split continuity) and C3 (layout) -/

/-- C2: writing `N` frames with file splitting every `K` frames
(`0 < K < N`) and reading the produced files back in start-frame order
yields exactly the `N` frames in original order with identical
`frame_index` (`0..N-1`, no gaps or duplicates), `timestamp_ns` and
payload bytes; the produced files' start frames are strictly increasing
(so start-frame order is creation order), and `N = 2500`, `K = 1000`
produce exactly three files. -/
theorem raw_split_roundtrip (p : CamParams) (K : Nat) (frames : List InFrame)
    (hK : 0 < K) (hKN : K < frames.length)
    (hok : ∀ f ∈ frames, FrameOK f) (hub : frames.length ≤ 2 ^ 64) :
    List.Chain' (· < ·) ((record_raw_frames p K frames).map Prod.fst) ∧
    ((record_raw_frames p K frames).map (fun fb => readFile fb.2)).flatten
      = indexFrames 0 frames ∧
    (((record_raw_frames p K frames).map (fun fb => readFile fb.2)).flatten.map
        (fun o => o.frame_index)) = List.range frames.length ∧
    (((record_raw_frames p K frames).map (fun fb => readFile fb.2)).flatten.map
        (fun o => o.timestamp_ns)) = frames.map (fun f => f.timestamp_ns) ∧
    (((record_raw_frames p K frames).map (fun fb => readFile fb.2)).flatten.map
        (fun o => o.payload)) = frames.map (fun f => f.payload) ∧
    (frames.length = 2500 → K = 1000 → (record_raw_frames p K frames).length = 3) := by
  have hread := record_raw_frames_read p K frames hok hub
  refine ⟨?_, hread, ?_, ?_, ?_, ?_⟩
  · cases frames with
    | nil => exact absurd hKN (by simp)
    | cons f rest =>
      rw [record_raw_frames]
      exact rawLoop_fst_chain p K rest 1
        (0, newFileBytes p f.timestamp_ns ++ frameRecBytes 0 f) (by norm_num)
  · rw [hread, indexFrames_map_index, List.range_eq_range']
  · rw [hread, indexFrames_map_timestamp]
  · rw [hread, indexFrames_map_payload]
  · intro hN hKval
    cases frames with
    | nil => simp at hN
    | cons f rest =>
      rw [hKval, record_raw_frames_length p 1000 (by norm_num) f rest]
      simp only [List.length_cons] at hN
      have hrest : rest.length = 2499 := by omega
      rw [hrest]

/-- Shared concrete recording for the C2 witness: 2500 empty frames with
split threshold 1000. -/
def c2frames : List InFrame := List.replicate 2500 ⟨0, []⟩

theorem raw_split_roundtrip_witness :
    List.Chain' (· < ·)
      ((record_raw_frames ⟨[], 0, 0⟩ 1000 c2frames).map Prod.fst) ∧
    ((record_raw_frames ⟨[], 0, 0⟩ 1000 c2frames).map
        (fun fb => readFile fb.2)).flatten = indexFrames 0 c2frames ∧
    (((record_raw_frames ⟨[], 0, 0⟩ 1000 c2frames).map
        (fun fb => readFile fb.2)).flatten.map (fun o => o.frame_index))
      = List.range c2frames.length ∧
    (((record_raw_frames ⟨[], 0, 0⟩ 1000 c2frames).map
        (fun fb => readFile fb.2)).flatten.map (fun o => o.timestamp_ns))
      = c2frames.map (fun f => f.timestamp_ns) ∧
    (((record_raw_frames ⟨[], 0, 0⟩ 1000 c2frames).map
        (fun fb => readFile fb.2)).flatten.map (fun o => o.payload))
      = c2frames.map (fun f => f.payload) ∧
    (c2frames.length = 2500 → 1000 = 1000 →
      (record_raw_frames ⟨[], 0, 0⟩ 1000 c2frames).length = 3) :=
  raw_split_roundtrip ⟨[], 0, 0⟩ 1000 c2frames
    (by norm_num)
    (by rw [c2frames, List.length_replicate]; norm_num)
    (by
      intro f hf
      rw [c2frames] at hf
      rw [List.eq_of_mem_replicate hf]
      refine ⟨by norm_num, by norm_num, by norm_num⟩)
    (by rw [c2frames, List.length_replicate]; norm_num)

/-- C3: every SRAW file written by the pipeline begins with a `FileHeader`
of exactly 40 little-endian bytes whose fields decode at their offsets
(magic "SRAW" at 0, u32 version 1 at 4, 16-byte NUL-padded serial at 8,
i64 `recording_start_ns` at 24, u16 width at 32, u16 height at 34,
u16 pixel_format at 36, u16 reserved 0 at 38); every frame is a 24-byte
little-endian `FrameHeader` (magic "FRAM", u32 payload_size, u64
frame_index, i64 timestamp_ns) immediately followed by `payload_size`
raw payload bytes. -/
theorem sraw_binary_layout :
    (∀ (serial : List Nat) (ts : Int) (w h pf : Nat) (tail : List Nat),
       serial.length ≤ 15 → (∀ b ∈ serial, b ≠ 0) →
       -(2 ^ 63) ≤ ts → ts < 2 ^ 63 → w < 2 ^ 16 → h < 2 ^ 16 → pf < 2 ^ 16 →
       (write_file_header serial ts w h pf).length = 40 ∧
       (write_file_header serial ts w h pf).take 4 = SRAW_MAGIC ∧
       ((write_file_header serial ts w h pf ++ tail).drop 8).take 16
          = padSerial serial ∧
       read_file_header (write_file_header serial ts w h pf ++ tail)
          = .ok (⟨SRAW_MAGIC, SRAW_VERSION, serial, ts, w, h, pf, 0⟩, tail)) ∧
    (∀ (i : Nat) (f : InFrame), i < 2 ^ 64 → FrameOK f →
       (write_frame_header f.payload.length i f.timestamp_ns).length = 24 ∧
       frameRecBytes i f
          = write_frame_header f.payload.length i f.timestamp_ns ++ f.payload ∧
       read_frame_header (frameRecBytes i f)
          = some (⟨FRAM_MAGIC, f.payload.length, i, f.timestamp_ns⟩, f.payload)) ∧
    (∀ (p : CamParams) (K : Nat) (frames : List InFrame),
       ∀ fb ∈ record_raw_frames p K frames,
         ∃ ts ws, fb.2 = write_file_header p.serial ts p.width p.height
             PIXEL_FORMAT_BAYER_GR8 ++ chunkBytes fb.1 ws) := by
  refine ⟨?_, ?_, record_raw_frames_shape⟩
  · intro serial ts w h pf tail hs hz hlo hhi hw hh hpf
    refine ⟨write_file_header_length serial ts w h pf, ?_, ?_, ?_⟩
    · rw [write_file_header]
      simp only [List.append_assoc]
      exact List.take_left' (by rfl)
    · rw [write_file_header]
      rw [show SRAW_MAGIC ++ encLE 4 SRAW_VERSION ++ padSerial serial ++
            encI64 ts ++ encLE 2 w ++ encLE 2 h ++ encLE 2 pf ++ encLE 2 0 ++ tail
          = (SRAW_MAGIC ++ encLE 4 SRAW_VERSION) ++ (padSerial serial ++
            (encI64 ts ++ (encLE 2 w ++ (encLE 2 h ++ (encLE 2 pf ++
            (encLE 2 0 ++ tail)))))) by simp [List.append_assoc]]
      rw [List.drop_left' (by simp [show (SRAW_MAGIC : List Nat).length = 4
        from rfl])]
      exact List.take_left' (padSerial_length serial)
    · exact read_file_header_append serial ts w h pf tail hs hz hlo hhi hw hh hpf
  · intro i f hi hok
    obtain ⟨hps, hlo, hhi⟩ := hok
    refine ⟨write_frame_header_length f.payload.length i f.timestamp_ns,
      rfl, ?_⟩
    have h := read_frame_header_append f.payload.length i f.timestamp_ns
      f.payload hps hi hlo hhi
    rw [frameRecBytes]
    rw [h]

theorem sraw_binary_layout_witness :
    ((write_file_header [0x30] 7 1920 1080 0).length = 40 ∧
     (write_file_header [0x30] 7 1920 1080 0).take 4 = SRAW_MAGIC ∧
     ((write_file_header [0x30] 7 1920 1080 0 ++ []).drop 8).take 16
        = padSerial [0x30] ∧
     read_file_header (write_file_header [0x30] 7 1920 1080 0 ++ [])
        = .ok (⟨SRAW_MAGIC, SRAW_VERSION, [0x30], 7, 1920, 1080, 0, 0⟩, [])) ∧
    ((write_frame_header (⟨7, [1, 2]⟩ : InFrame).payload.length 5
        (⟨7, [1, 2]⟩ : InFrame).timestamp_ns).length = 24 ∧
     frameRecBytes 5 ⟨7, [1, 2]⟩
        = write_frame_header (⟨7, [1, 2]⟩ : InFrame).payload.length 5
            (⟨7, [1, 2]⟩ : InFrame).timestamp_ns ++
            (⟨7, [1, 2]⟩ : InFrame).payload ∧
     read_frame_header (frameRecBytes 5 ⟨7, [1, 2]⟩)
        = some (⟨FRAM_MAGIC, (⟨7, [1, 2]⟩ : InFrame).payload.length, 5,
            (⟨7, [1, 2]⟩ : InFrame).timestamp_ns⟩,
            (⟨7, [1, 2]⟩ : InFrame).payload)) ∧
    (∀ fb ∈ record_raw_frames ⟨[0x30], 4, 4⟩ 2 [⟨1, [9]⟩, ⟨2, [8]⟩],
       ∃ ts ws, fb.2 = write_file_header (⟨[0x30], 4, 4⟩ : CamParams).serial ts
           (⟨[0x30], 4, 4⟩ : CamParams).width (⟨[0x30], 4, 4⟩ : CamParams).height
           PIXEL_FORMAT_BAYER_GR8 ++ chunkBytes fb.1 ws) :=
  ⟨sraw_binary_layout.1 [0x30] 7 1920 1080 0 []
      (by norm_num) (by intro b hb; simp at hb; omega)
      (by norm_num) (by norm_num) (by norm_num) (by norm_num) (by norm_num),
   sraw_binary_layout.2.1 5 ⟨7, [1, 2]⟩ (by norm_num)
      ⟨by norm_num, by norm_num, by norm_num⟩,
   sraw_binary_layout.2.2 ⟨[0x30], 4, 4⟩ 2 [⟨1, [9]⟩, ⟨2, [8]⟩]⟩

/-! ## Offset estimation and trigger scheduling (`_configure_and_schedule`)

`_configure_and_schedule(camera_contexts, start_delay_s, threshold_ms,
trigger_interval_fps)` runs four phases:

1. read `host_ref_before_ns = time.time_ns()`, issue `TIMESTAMP_LATCH` to
   every camera (a latch failure only logs a warning), read
   `host_ref_after_ns = time.time_ns()`, and set
   `host_ref_ns = (before + after) // 2`;
2. read `TIMESTAMP_LATCH_VALUE` per camera; a failed read (or a
   non-numeric value) logs a warning and leaves that camera without a
   delta; otherwise `delta_ns = camera_time_ns - host_ref_ns`;
3. if any measured `|delta_ns| > threshold_ns` the function calls
   `sys.exit(2)` before computing `host_target_ns` or touching any
   scheduler property;
4. `host_target_ns = time.time_ns() + int(start_delay_s * 1e9)`; for each
   camera with a delta: set trigger selector/source/mode (warnings only),
   try `ACTION_SCHEDULER_CANCEL` (failure ignored), set
   `ACTION_SCHEDULER_TIME = host_target_ns + delta_ns` (failure:
   `sys.exit(2)`), set `ACTION_SCHEDULER_INTERVAL =
   round(1e6 / trigger_interval_fps)` (failure: `sys.exit(2)`), try
   `ACTION_SCHEDULER_COMMIT` (failure: `sys.exit(2)`).  A camera without
   a grabber or without a delta is skipped with a warning.

The host clock reads, the per-device property-read results and the
per-device property-write outcomes are inputs of the model; the model
returns the ordered trace of device-property operations together with
the outcome (`sys.exit(2)` or the returned `host_target_ns` plus the
programmed schedules). -/

/-- Python `int(x)` on an exact rational: truncation toward zero. -/
def pyTrunc (q : ℚ) : Int := q.num.tdiv (q.den : Int)

/-- Floor of an exact rational (positive denominator). -/
def ratFloor (q : ℚ) : Int := q.num.fdiv (q.den : Int)

/-- Python `round(x)` on an exact rational: round half to even.  (Python
computes `round(1e6 / trigger_fps)` in binary floating point; the value
is modelled as the exact rational, which agrees at the fps values the
program uses.) -/
def pyRound (q : ℚ) : Int :=
  let f := ratFloor q
  let r := q - (f : ℚ)
  if r < 1 / 2 then f
  else if 1 / 2 < r then f + 1
  else if f % 2 = 0 then f else f + 1

/-- One camera context as `_configure_and_schedule` sees it.  `latchOk`
false means the `TIMESTAMP_LATCH` write raised (warning only, no
control-flow effect).  `latched = none` means reading
`TIMESTAMP_LATCH_VALUE` failed (or the value was not numeric): the
camera then gets no delta.  The three write flags tell whether the
`ACTION_SCHEDULER_TIME` / `ACTION_SCHEDULER_INTERVAL` /
`ACTION_SCHEDULER_COMMIT` writes succeed; a failed trigger
selector/source/mode write is warning-only and not represented. -/
structure Device where
  serial : Nat
  grabberOk : Bool
  latchOk : Bool
  latched : Option Int
  setTimeOk : Bool
  setIntervalOk : Bool
  commitOk : Bool
  deriving Repr, DecidableEq

/-- A device-property operation issued by `_configure_and_schedule`, in
program order.  Issued attempts are recorded whether or not they
succeed. -/
inductive DevAction where
  | latch (serial : Nat)
  | readLatch (serial : Nat)
  | setTriggerSelector (serial : Nat)
  | setTriggerSource (serial : Nat)
  | setTriggerMode (serial : Nat)
  | cancelSchedule (serial : Nat)
  | setScheduleTime (serial : Nat) (target_ns : Int)
  | setScheduleInterval (serial : Nat) (interval_us : Int)
  | commitSchedule (serial : Nat)
  deriving Repr, DecidableEq

/-- The serial an action addresses. -/
def DevAction.serialOf : DevAction → Nat
  | .latch s => s
  | .readLatch s => s
  | .setTriggerSelector s => s
  | .setTriggerSource s => s
  | .setTriggerMode s => s
  | .cancelSchedule s => s
  | .setScheduleTime s _ => s
  | .setScheduleInterval s _ => s
  | .commitSchedule s => s

/-- Result of `_configure_and_schedule`: `sys.exit(2)`, or the returned
`host_target_ns` with the programmed `(serial, camera_target_ns,
interval_us)` schedules. -/
inductive SchedOutcome where
  | exit2
  | ok (host_target_ns : Int) (schedules : List (Nat × Int × Int))
  deriving Repr, DecidableEq

/-- Environment values of one `_configure_and_schedule` call: the three
host-clock reads and the three caller-supplied parameters. -/
structure SchedInputs where
  before_ns : Int
  after_ns : Int
  now_ns : Int
  start_delay_s : ℚ
  threshold_ms : ℚ
  trigger_interval_fps : ℚ
  deriving Repr

/-- `host_ref_ns = (host_ref_before_ns + host_ref_after_ns) // 2`. -/
def host_ref_ns (i : SchedInputs) : Int := (i.before_ns + i.after_ns).fdiv 2

/-- `threshold_ns = int(threshold_ms * 1_000_000)`. -/
def threshold_ns (i : SchedInputs) : Int := pyTrunc (i.threshold_ms * 1000000)

/-- `host_target_ns = time.time_ns() + int(start_delay_s * 1_000_000_000)`. -/
def host_target_ns (i : SchedInputs) : Int :=
  i.now_ns + pyTrunc (i.start_delay_s * 1000000000)

/-- `interval_us = round(1_000_000 / trigger_interval_fps)`. -/
def interval_us (i : SchedInputs) : Int :=
  pyRound (1000000 / i.trigger_interval_fps)

/-- `--offset-threshold-ms` defaults to 3.0 ms (`parse_args`). -/
def defaultOffsetThresholdMs : ℚ := 3

/-- `--start-delay-s` defaults to 10.0 s (`parse_args`). -/
def defaultStartDelayS : ℚ := 10

/-- `TRIGGER_INTERVAL_FPS = 30.0`, a constant in `main` (there is no
command-line option for it). -/
def TRIGGER_INTERVAL_FPS : ℚ := 30

/-- The measured deltas, in context order: one entry per camera whose
grabber is available and whose latched value was read successfully,
`delta_ns = camera_time_ns - host_ref_ns`.  (`deltas` is a dict keyed by
serial; serials are unique keys, so an association list in insertion
order is faithful.) -/
def measuredDeltas (i : SchedInputs) (devs : List Device) : List (Nat × Int) :=
  devs.filterMap fun d =>
    if d.grabberOk then d.latched.map (fun v => (d.serial, v - host_ref_ns i))
    else none

/-- Phase 4, the per-camera scheduling loop: returns the action trace and
`none` on `sys.exit(2)` (a failed time/interval/commit write stops the
whole program on the spot), else the programmed schedules. -/
def schedulePhase (target iv : Int) (deltas : List (Nat × Int)) :
    List Device → List DevAction × Option (List (Nat × Int × Int))
  | [] => ([], some [])
  | d :: rest =>
    if d.grabberOk then
      match deltas.lookup d.serial with
      | none => schedulePhase target iv deltas rest
      | some δ =>
        let tgt := target + δ
        let pre := [DevAction.setTriggerSelector d.serial,
                    DevAction.setTriggerSource d.serial,
                    DevAction.setTriggerMode d.serial,
                    DevAction.cancelSchedule d.serial,
                    DevAction.setScheduleTime d.serial tgt]
        if ¬ d.setTimeOk then (pre, none)
        else if ¬ d.setIntervalOk then
          (pre ++ [DevAction.setScheduleInterval d.serial iv], none)
        else if ¬ d.commitOk then
          (pre ++ [DevAction.setScheduleInterval d.serial iv,
                   DevAction.commitSchedule d.serial], none)
        else
          let rec' := schedulePhase target iv deltas rest
          (pre ++ [DevAction.setScheduleInterval d.serial iv,
                   DevAction.commitSchedule d.serial] ++ rec'.1,
           rec'.2.map (fun l => (d.serial, tgt, iv) :: l))
    else
      schedulePhase target iv deltas rest

/-- `_configure_and_schedule`: the full action trace and the outcome. -/
def configure_and_schedule (i : SchedInputs) (devs : List Device) :
    List DevAction × SchedOutcome :=
  let latchActs := devs.filterMap fun d =>
    if d.grabberOk then some (DevAction.latch d.serial) else none
  let readActs := devs.filterMap fun d =>
    if d.grabberOk then some (DevAction.readLatch d.serial) else none
  let deltas := measuredDeltas i devs
  let violations := deltas.filter fun sd => threshold_ns i < |sd.2|
  if violations.isEmpty then
    let sched := schedulePhase (host_target_ns i) (interval_us i) deltas devs
    match sched.2 with
    | none => (latchActs ++ readActs ++ sched.1, .exit2)
    | some scheds =>
        (latchActs ++ readActs ++ sched.1, .ok (host_target_ns i) scheds)
  else
    (latchActs ++ readActs, .exit2)

/-! ## Scheduling lemmas -/

/-- Scheduling with every touched device healthy: every camera with a
measured delta is programmed, skipped cameras (no delta) are passed
over, and the result is the in-order schedule list. -/
theorem schedulePhase_mixed (target iv : Int) (deltas : List (Nat × Int)) :
    ∀ devs : List Device,
      (∀ d ∈ devs, d.grabberOk = true) →
      (∀ d ∈ devs, (deltas.lookup d.serial).isSome →
        d.setTimeOk = true ∧ d.setIntervalOk = true ∧ d.commitOk = true) →
      (schedulePhase target iv deltas devs).2 =
        some (devs.filterMap fun d =>
          (deltas.lookup d.serial).map fun δ => (d.serial, target + δ, iv)) := by
  intro devs
  induction devs with
  | nil => intro _ _; rfl
  | cons d rest ih =>
    intro hg hok
    have hgd : d.grabberOk = true := hg d (List.mem_cons_self d rest)
    have ihx := ih (fun e he => hg e (List.mem_cons_of_mem d he))
      (fun e he => hok e (List.mem_cons_of_mem d he))
    rw [schedulePhase, if_pos hgd]
    rcases hl : deltas.lookup d.serial with _ | δ
    · show (schedulePhase target iv deltas rest).2 = _
      simp only [List.filterMap_cons, hl, Option.map_none']
      exact ihx
    · obtain ⟨ht, hiv, hcm⟩ := hok d (List.mem_cons_self d rest) (by rw [hl]; rfl)
      simp [ht, hiv, hcm, ihx, List.filterMap_cons, hl]

/-- With unique serials, every successfully read camera's delta is found
in the dict. -/
theorem measuredDeltas_lookup (i : SchedInputs) :
    ∀ devs : List Device,
      (devs.map (fun d => d.serial)).Nodup →
      ∀ d ∈ devs, d.grabberOk = true → ∀ v, d.latched = some v →
        (measuredDeltas i devs).lookup d.serial = some (v - host_ref_ns i) := by
  intro devs
  induction devs with
  | nil => intro _ d hd; exact absurd hd (by simp)
  | cons e rest ih =>
    intro hnodup d hd hg v hv
    have hcons : (e.serial :: rest.map (fun d => d.serial)).Nodup := by
      simpa using hnodup
    have hnc := List.nodup_cons.1 hcons
    rcases List.mem_cons.1 hd with h | h
    · subst h
      rw [measuredDeltas, List.filterMap_cons, if_pos hg, hv]
      simp only [Option.map_some']
      exact List.lookup_cons_self
    · have hne : e.serial ≠ d.serial := by
        intro hc
        apply hnc.1
        rw [hc]
        exact List.mem_map_of_mem _ h
      have ihx := ih hnc.2 d h hg v hv
      rw [measuredDeltas, List.filterMap_cons]
      rw [measuredDeltas] at ihx
      by_cases hge : e.grabberOk = true
      · rw [if_pos hge]
        rcases hle : e.latched with _ | w
        · simp only [Option.map_none']
          exact ihx
        · simp only [Option.map_some']
          rw [List.lookup_cons]
          have hbeq : (d.serial == e.serial) = false := by
            rw [beq_eq_false_iff_ne]
            exact fun hc => hne hc.symm
          rw [hbeq]
          exact ihx
      · rw [if_neg hge]
        exact ihx

theorem filterMap_congr_some {α β : Type} {f : α → Option β} {g : α → β} :
    ∀ l : List α, (∀ a ∈ l, f a = some (g a)) → l.filterMap f = l.map g := by
  intro l
  induction l with
  | nil => intro _; rfl
  | cons a l ih =>
    intro h
    rw [List.filterMap_cons, h a (List.mem_cons_self a l), List.map_cons,
      ih (fun b hb => h b (List.mem_cons_of_mem a hb))]

/-- C1: all devices sampled in one latch bracket share the single host
reference `host_ref_ns = (before_ns + after_ns) // 2` (host clock read
once before and once after issuing the latch commands); each device's
offset is `offset_ns = device_latched_ns - host_ref_ns`, and its
programmed trigger time is `device_target_ns = host_target_ns +
offset_ns` with `host_target_ns = host_now_ns +
int(start_delay_s * 1e9)` and interval
`interval_us = round(1e6 / trigger_fps)`. -/
theorem shared_reference_scheduling (i : SchedInputs) (devs : List Device)
    (hnodup : (devs.map (fun d => d.serial)).Nodup)
    (hg : ∀ d ∈ devs, d.grabberOk = true)
    (hflags : ∀ d ∈ devs,
      d.setTimeOk = true ∧ d.setIntervalOk = true ∧ d.commitOk = true)
    (hthr : ∀ d ∈ devs, ∀ v, d.latched = some v →
      |v - host_ref_ns i| ≤ threshold_ns i)
    (hread : ∀ d ∈ devs, ∃ v, d.latched = some v) :
    host_ref_ns i = (i.before_ns + i.after_ns).fdiv 2 ∧
    host_target_ns i = i.now_ns + pyTrunc (i.start_delay_s * 1000000000) ∧
    interval_us i = pyRound (1000000 / i.trigger_interval_fps) ∧
    (configure_and_schedule i devs).2 =
      .ok (host_target_ns i)
        (devs.map fun d =>
          (d.serial, host_target_ns i + (d.latched.getD 0 - host_ref_ns i),
           interval_us i)) := by
  refine ⟨rfl, rfl, rfl, ?_⟩
  have hempty : ((measuredDeltas i devs).filter
      fun sd => threshold_ns i < |sd.2|).isEmpty = true := by
    rw [List.isEmpty_iff, List.filter_eq_nil_iff]
    intro sd hsd
    obtain ⟨d, hd, hfd⟩ := List.mem_filterMap.1 hsd
    rw [if_pos (hg d hd)] at hfd
    obtain ⟨v, hv⟩ := hread d hd
    rw [hv] at hfd
    simp only [Option.map_some', Option.some.injEq] at hfd
    have := hthr d hd v hv
    subst hfd
    simp only [decide_eq_true_eq]
    omega
  have hlook : ∀ d ∈ devs,
      (measuredDeltas i devs).lookup d.serial
        = some (d.latched.getD 0 - host_ref_ns i) := by
    intro d hd
    obtain ⟨v, hv⟩ := hread d hd
    rw [measuredDeltas_lookup i devs hnodup d hd (hg d hd) v hv, hv]
    rfl
  have hsched := schedulePhase_mixed (host_target_ns i) (interval_us i)
    (measuredDeltas i devs) devs hg
    (fun d hd _ => hflags d hd)
  rw [configure_and_schedule]
  simp only [hempty, if_true]
  rw [hsched]
  show SchedOutcome.ok (host_target_ns i)
      (devs.filterMap fun d =>
        ((measuredDeltas i devs).lookup d.serial).map
          fun δ => (d.serial, host_target_ns i + δ, interval_us i)) = _
  congr 1
  exact filterMap_congr_some devs fun d hd => by
    rw [hlook d hd]
    rfl

/-- Shared concrete inputs for scheduling witnesses: clock bracket
(1000, 2000), `time.time_ns() = 5000` before scheduling, default delay
10 s, default threshold 3 ms, trigger fps 30. -/
def wIn : SchedInputs := ⟨1000, 2000, 5000, 10, 3, 30⟩

/-- A healthy device for the witnesses. -/
def wDev (s : Nat) (v : Int) : Device := ⟨s, true, true, some v, true, true, true⟩

theorem wIn_host_ref : host_ref_ns wIn = 1500 := by decide

theorem wIn_threshold : threshold_ns wIn = 3000000 := by
  norm_num [threshold_ns, pyTrunc, wIn]

theorem shared_reference_scheduling_witness :
    host_ref_ns wIn = (wIn.before_ns + wIn.after_ns).fdiv 2 ∧
    host_target_ns wIn = wIn.now_ns + pyTrunc (wIn.start_delay_s * 1000000000) ∧
    interval_us wIn = pyRound (1000000 / wIn.trigger_interval_fps) ∧
    (configure_and_schedule wIn [wDev 1 1500, wDev 2 1800]).2 =
      .ok (host_target_ns wIn)
        ([wDev 1 1500, wDev 2 1800].map fun d =>
          (d.serial, host_target_ns wIn + (d.latched.getD 0 - host_ref_ns wIn),
           interval_us wIn)) :=
  shared_reference_scheduling wIn [wDev 1 1500, wDev 2 1800]
    (by decide) (by decide) (by decide)
    (by
      intro d hd v hv
      rw [wIn_host_ref, wIn_threshold]
      fin_cases hd <;>
        (simp only [wDev] at hv
         injection hv with hv
         subst hv
         decide))
    (by
      intro d hd
      fin_cases hd
      exacts [⟨1500, rfl⟩, ⟨1800, rfl⟩])

/-- C10: scheduling is gated on the measured offsets — if any sampled
device's `|delta_ns|` exceeds the `--offset-threshold-ms` threshold
(default 3 ms), the program exits with status 2 before any
`ACTION_SCHEDULER_TIME` is programmed; a trigger time is programmed only
when every sampled offset is within the threshold. -/
theorem offset_threshold_gate (i : SchedInputs) (devs : List Device) :
    defaultOffsetThresholdMs = 3 ∧
    ((∃ sd ∈ measuredDeltas i devs, threshold_ns i < |sd.2|) →
      (configure_and_schedule i devs).2 = .exit2 ∧
      ∀ s t, DevAction.setScheduleTime s t ∉ (configure_and_schedule i devs).1) ∧
    (∀ s t, DevAction.setScheduleTime s t ∈ (configure_and_schedule i devs).1 →
      ∀ sd ∈ measuredDeltas i devs, |sd.2| ≤ threshold_ns i) := by
  have hkey : (∃ sd ∈ measuredDeltas i devs, threshold_ns i < |sd.2|) →
      (configure_and_schedule i devs).2 = .exit2 ∧
      ∀ s t, DevAction.setScheduleTime s t ∉ (configure_and_schedule i devs).1 := by
    intro hex
    obtain ⟨sd, hsd, hgt⟩ := hex
    have hne : ((measuredDeltas i devs).filter
        fun sd => threshold_ns i < |sd.2|).isEmpty = false := by
      rcases h : ((measuredDeltas i devs).filter
          fun sd => threshold_ns i < |sd.2|).isEmpty with _ | _
      · exact h
      · exfalso
        rw [List.isEmpty_iff] at h
        have : sd ∈ (measuredDeltas i devs).filter
            fun sd => threshold_ns i < |sd.2| := by
          rw [List.mem_filter]
          exact ⟨hsd, by simp only [decide_eq_true_eq]; exact hgt⟩
        rw [h] at this
        exact absurd this (List.not_mem_nil sd)
    rw [configure_and_schedule]
    simp only [hne, if_false]
    refine ⟨rfl, ?_⟩
    intro s t hmem
    rcases List.mem_append.1 hmem with h | h
    · obtain ⟨d, _, hfd⟩ := List.mem_filterMap.1 h
      by_cases hgd : d.grabberOk = true
      · rw [if_pos hgd] at hfd
        exact absurd hfd (by simp)
      · rw [if_neg hgd] at hfd
        exact absurd hfd (by simp)
    · obtain ⟨d, _, hfd⟩ := List.mem_filterMap.1 h
      by_cases hgd : d.grabberOk = true
      · rw [if_pos hgd] at hfd
        exact absurd hfd (by simp)
      · rw [if_neg hgd] at hfd
        exact absurd hfd (by simp)
  refine ⟨rfl, hkey, ?_⟩
  intro s t hmem sd hsd
  by_contra hgt
  push_neg at hgt
  exact (hkey ⟨sd, hsd, hgt⟩).2 s t hmem

theorem offset_threshold_gate_witness :
    (configure_and_schedule wIn [wDev 1 99999999999]).2 = .exit2 ∧
    ∀ s t, DevAction.setScheduleTime s t ∉
      (configure_and_schedule wIn [wDev 1 99999999999]).1 :=
  (offset_threshold_gate wIn [wDev 1 99999999999]).2.1
    ⟨(1, 99999999999 - host_ref_ns wIn), by decide,
     by rw [wIn_threshold, wIn_host_ref]; decide⟩

/-! ## Trace structure of the scheduling phase -/

/-- The actions of the trace addressing serial `s`, in order. -/
def actionsFor (s : Nat) (tr : List DevAction) : List DevAction :=
  tr.filter fun a => a.serialOf == s

/-- The full programming block the loop issues for one healthy camera:
trigger selector/source/mode, the camera's own best-effort cancel, then
time, interval, commit. -/
def fullBlock (target iv : Int) (s : Nat) (δ : Int) : List DevAction :=
  [DevAction.setTriggerSelector s, DevAction.setTriggerSource s,
   DevAction.setTriggerMode s, DevAction.cancelSchedule s,
   DevAction.setScheduleTime s (target + δ),
   DevAction.setScheduleInterval s iv, DevAction.commitSchedule s]

/-- Every scheduling-phase action addresses a camera that has a grabber
and a measured delta (skipped cameras generate no actions). -/
theorem schedulePhase_action_serials (target iv : Int)
    (deltas : List (Nat × Int)) :
    ∀ devs : List Device, ∀ a ∈ (schedulePhase target iv deltas devs).1,
      ∃ d ∈ devs, DevAction.serialOf a = d.serial ∧ d.grabberOk = true ∧
        (deltas.lookup d.serial).isSome = true := by
  intro devs
  induction devs with
  | nil => intro a ha; exact absurd ha (by simp [schedulePhase])
  | cons d rest ih =>
    intro a ha
    rw [schedulePhase] at ha
    by_cases hgd : d.grabberOk = true
    · rw [if_pos hgd] at ha
      split at ha
      · obtain ⟨e, he, hx⟩ := ih a ha
        exact ⟨e, List.mem_cons_of_mem d he, hx⟩
      · rename_i δ hl
        have hsome : (deltas.lookup d.serial).isSome = true := by
          rw [hl]; rfl
        have hback : DevAction.serialOf a = d.serial →
            ∃ e ∈ d :: rest, DevAction.serialOf a = e.serial ∧
              e.grabberOk = true ∧ (deltas.lookup e.serial).isSome = true :=
          fun h => ⟨d, List.mem_cons_self d rest, h, hgd, hsome⟩
        split at ha
        · simp only [List.mem_cons, List.not_mem_nil, or_false] at ha
          rcases ha with rfl | rfl | rfl | rfl | rfl <;> exact hback rfl
        · split at ha
          · simp only [List.mem_append, List.mem_cons,
              List.not_mem_nil, or_false] at ha
            rcases ha with (rfl | rfl | rfl | rfl | rfl) | rfl <;>
              exact hback rfl
          · split at ha
            · simp only [List.mem_append, List.mem_cons,
                List.not_mem_nil, or_false] at ha
              rcases ha with (rfl | rfl | rfl | rfl | rfl) | rfl | rfl <;>
                exact hback rfl
            · simp only [List.mem_append, List.mem_cons,
                List.not_mem_nil, or_false] at ha
              rcases ha with ((rfl | rfl | rfl | rfl | rfl) | rfl | rfl) | hrec
              · exact hback rfl
              · exact hback rfl
              · exact hback rfl
              · exact hback rfl
              · exact hback rfl
              · exact hback rfl
              · exact hback rfl
              · obtain ⟨e, he, hx⟩ := ih a hrec
                exact ⟨e, List.mem_cons_of_mem d he, hx⟩
    · rw [if_neg hgd] at ha
      obtain ⟨e, he, hx⟩ := ih a ha
      exact ⟨e, List.mem_cons_of_mem d he, hx⟩

@[simp] theorem serialOf_fullBlock (target iv : Int) (s : Nat) (δ : Int) :
    ∀ a ∈ fullBlock target iv s δ, DevAction.serialOf a = s := by
  intro a ha
  simp only [fullBlock, List.mem_cons, List.not_mem_nil, or_false] at ha
  rcases ha with rfl | rfl | rfl | rfl | rfl | rfl | rfl <;> rfl

theorem schedulePhase_cons_healthy (target iv : Int) (deltas : List (Nat × Int))
    (d : Device) (rest : List Device) (δ : Int)
    (hg : d.grabberOk = true) (hl : deltas.lookup d.serial = some δ)
    (ht : d.setTimeOk = true) (hiv : d.setIntervalOk = true)
    (hcm : d.commitOk = true) :
    schedulePhase target iv deltas (d :: rest) =
      (fullBlock target iv d.serial δ ++ (schedulePhase target iv deltas rest).1,
       (schedulePhase target iv deltas rest).2.map
         fun l => (d.serial, target + δ, iv) :: l) := by
  rw [schedulePhase, if_pos hg, hl]
  simp [ht, hiv, hcm, fullBlock]

theorem schedulePhase_cons_skip (target iv : Int) (deltas : List (Nat × Int))
    (d : Device) (rest : List Device)
    (h : d.grabberOk = false ∨ deltas.lookup d.serial = none) :
    schedulePhase target iv deltas (d :: rest) =
      schedulePhase target iv deltas rest := by
  rcases h with h | h
  · rw [schedulePhase, if_neg (by rw [h]; simp)]
  · rw [schedulePhase]
    by_cases hg : d.grabberOk = true
    · rw [if_pos hg, h]
    · rw [if_neg hg]

theorem schedulePhase_cons_fail (target iv : Int) (deltas : List (Nat × Int))
    (d : Device) (rest : List Device) (δ : Int)
    (hg : d.grabberOk = true) (hl : deltas.lookup d.serial = some δ)
    (hfail : ¬ (d.setTimeOk = true ∧ d.setIntervalOk = true ∧ d.commitOk = true)) :
    (schedulePhase target iv deltas (d :: rest)).2 = none ∧
    DevAction.setScheduleTime d.serial (target + δ)
      ∈ (schedulePhase target iv deltas (d :: rest)).1 ∧
    ∀ a ∈ (schedulePhase target iv deltas (d :: rest)).1,
      DevAction.serialOf a = d.serial := by
  rw [schedulePhase, if_pos hg, hl]
  by_cases ht : d.setTimeOk = true
  · by_cases hiv : d.setIntervalOk = true
    · have hcm : ¬ d.commitOk = true := fun hc => hfail ⟨ht, hiv, hc⟩
      refine ⟨by simp [ht, hiv, hcm], by simp [ht, hiv, hcm], ?_⟩
      intro a ha
      simp [ht, hiv, hcm] at ha
      rcases ha with rfl | rfl | rfl | rfl | rfl | rfl | rfl <;> rfl
    · refine ⟨by simp [ht, hiv], by simp [ht, hiv], ?_⟩
      intro a ha
      simp [ht, hiv] at ha
      rcases ha with rfl | rfl | rfl | rfl | rfl | rfl <;> rfl
  · refine ⟨by simp [ht], by simp [ht], ?_⟩
    intro a ha
    simp [ht] at ha
    rcases ha with rfl | rfl | rfl | rfl | rfl <;> rfl

theorem actionsFor_of_serials_ne (s : Nat) (tr : List DevAction)
    (h : ∀ a ∈ tr, DevAction.serialOf a ≠ s) : actionsFor s tr = [] := by
  rw [actionsFor, List.filter_eq_nil_iff]
  intro a ha
  simp only [beq_iff_eq]
  exact h a ha

theorem actionsFor_append (s : Nat) (t₁ t₂ : List DevAction) :
    actionsFor s (t₁ ++ t₂) = actionsFor s t₁ ++ actionsFor s t₂ := by
  simp [actionsFor]

theorem actionsFor_fullBlock_self (target iv : Int) (s : Nat) (δ : Int) :
    actionsFor s (fullBlock target iv s δ) = fullBlock target iv s δ := by
  rw [actionsFor, List.filter_eq_self]
  intro a ha
  simp only [beq_iff_eq]
  exact serialOf_fullBlock target iv s δ a ha

theorem actionsFor_fullBlock_ne (target iv : Int) (s s' : Nat) (δ : Int)
    (h : s' ≠ s) : actionsFor s (fullBlock target iv s' δ) = [] := by
  apply actionsFor_of_serials_ne
  intro a ha
  rw [serialOf_fullBlock target iv s' δ a ha]
  exact h

/-- Per-serial view of the latch (or read) pass: with unique serials and
all grabbers present, the pass issues exactly one action for `e`. -/
theorem actionsFor_pass (mk : Nat → DevAction) (hmk : ∀ s, (mk s).serialOf = s) :
    ∀ (devs : List Device) (e : Device), e ∈ devs →
      (∀ d ∈ devs, d.grabberOk = true) →
      ((devs.map fun d => d.serial).Nodup) →
      actionsFor e.serial
          (devs.filterMap fun d => if d.grabberOk then some (mk d.serial) else none)
        = [mk e.serial] := by
  intro devs
  induction devs with
  | nil => intro e he; exact absurd he (List.not_mem_nil e)
  | cons p rest ih =>
    intro e he hg hnodup
    have hcons : (p.serial :: rest.map fun d => d.serial).Nodup := by
      simpa using hnodup
    have hnc := List.nodup_cons.1 hcons
    rw [List.filterMap_cons, if_pos (hg p (List.mem_cons_self p rest))]
    show actionsFor e.serial (mk p.serial ::
        (rest.filterMap fun d => if d.grabberOk then some (mk d.serial) else none))
      = [mk e.serial]
    rcases List.mem_cons.1 he with h | h
    · subst h
      rw [actionsFor, List.filter_cons, if_pos (by simp [hmk])]
      have hrest : actionsFor e.serial
          (rest.filterMap fun d => if d.grabberOk then some (mk d.serial) else none)
            = [] := by
        apply actionsFor_of_serials_ne
        intro a ha
        obtain ⟨d, hd, hfd⟩ := List.mem_filterMap.1 ha
        rw [if_pos (hg d (List.mem_cons_of_mem e hd))] at hfd
        simp only [Option.some.injEq] at hfd
        rw [← hfd, hmk]
        intro hc
        exact hnc.1 (by rw [← hc]; exact List.mem_map_of_mem _ hd)
      rw [actionsFor] at hrest
      rw [hrest]
    · have hne : p.serial ≠ e.serial := by
        intro hc
        exact hnc.1 (by rw [hc]; exact List.mem_map_of_mem _ h)
      rw [actionsFor, List.filter_cons, if_neg (by simp [hmk, hne])]
      exact ih e h (fun d hd => hg d (List.mem_cons_of_mem p hd)) hnc.2

/-- When every successfully read value is within the threshold, the
violation list of phase 3 is empty. -/
theorem violations_empty (i : SchedInputs) (devs : List Device)
    (hthr : ∀ d ∈ devs, ∀ v, d.latched = some v →
      |v - host_ref_ns i| ≤ threshold_ns i) :
    ((measuredDeltas i devs).filter
      fun sd => threshold_ns i < |sd.2|).isEmpty = true := by
  rw [List.isEmpty_iff, List.filter_eq_nil_iff]
  intro sd hsd
  obtain ⟨d, hd, hfd⟩ := List.mem_filterMap.1 hsd
  by_cases hgd : d.grabberOk = true
  · rw [if_pos hgd] at hfd
    rcases hv : d.latched with _ | v
    · rw [hv] at hfd
      exact absurd hfd (by simp)
    · rw [hv] at hfd
      simp only [Option.map_some', Option.some.injEq] at hfd
      have := hthr d hd v hv
      subst hfd
      simp only [decide_eq_true_eq]
      omega
  · rw [if_neg hgd] at hfd
    exact absurd hfd (by simp)

/-- A healthy committed prefix contributes one full block per camera, and
a failure later in the list still fails the whole phase. -/
theorem schedulePhase_healthy_prefix (target iv : Int)
    (deltas : List (Nat × Int)) :
    ∀ (pre rest : List Device),
      (∀ e ∈ pre, e.grabberOk = true) →
      (∀ e ∈ pre, e.setTimeOk = true ∧ e.setIntervalOk = true ∧
        e.commitOk = true) →
      (∀ e ∈ pre, ∃ δ, deltas.lookup e.serial = some δ) →
      (schedulePhase target iv deltas (pre ++ rest)).1 =
        (pre.map fun e => fullBlock target iv e.serial
          ((deltas.lookup e.serial).getD 0)).flatten
          ++ (schedulePhase target iv deltas rest).1 ∧
      ((schedulePhase target iv deltas rest).2 = none →
        (schedulePhase target iv deltas (pre ++ rest)).2 = none) := by
  intro pre
  induction pre with
  | nil => intro rest _ _ _; exact ⟨by simp, fun h => h⟩
  | cons p pre' ih =>
    intro rest hg hflags hlook
    have hgp := hg p (List.mem_cons_self p pre')
    have hfp := hflags p (List.mem_cons_self p pre')
    obtain ⟨δ, hδ⟩ := hlook p (List.mem_cons_self p pre')
    have ihx := ih rest (fun e he => hg e (List.mem_cons_of_mem p he))
      (fun e he => hflags e (List.mem_cons_of_mem p he))
      (fun e he => hlook e (List.mem_cons_of_mem p he))
    rw [List.cons_append,
      schedulePhase_cons_healthy target iv deltas p (pre' ++ rest) δ
        hgp hδ hfp.1 hfp.2.1 hfp.2.2]
    constructor
    · simp only [List.map_cons, List.flatten_cons, List.append_assoc]
      rw [ihx.1, hδ]
      rfl
    · intro hnone
      simp only [ihx.2 hnone, Option.map_none']

/-- Serial distinctness facts extracted from the no-duplicates
hypothesis. -/
theorem serial_split_ne (pre : List Device) (d : Device) (post : List Device)
    (hnodup : ((pre ++ d :: post).map fun e => e.serial).Nodup) :
    (∀ p ∈ pre, ∀ e ∈ d :: post, p.serial ≠ e.serial) ∧
    (∀ e ∈ post, d.serial ≠ e.serial) := by
  rw [List.map_append, List.nodup_append] at hnodup
  obtain ⟨h1, h2, h3⟩ := hnodup
  constructor
  · intro p hp e he hc
    exact h3 (List.mem_map_of_mem _ hp)
      (by rw [hc]; exact List.mem_map_of_mem _ he)
  · intro e he hc
    simp only [List.map_cons, List.nodup_cons] at h2
    exact h2.1 (by rw [hc]; exact List.mem_map_of_mem _ he)

/-- Filtering the healthy prefix's blocks for one of its cameras yields
exactly that camera's block. -/
theorem actionsFor_blocks (target iv : Int) (deltas : List (Nat × Int)) :
    ∀ (pre : List Device) (e : Device), e ∈ pre →
      ((pre.map fun d => d.serial).Nodup) →
      actionsFor e.serial
          ((pre.map fun p => fullBlock target iv p.serial
            ((deltas.lookup p.serial).getD 0)).flatten)
        = fullBlock target iv e.serial ((deltas.lookup e.serial).getD 0) := by
  intro pre
  induction pre with
  | nil => intro e he; exact absurd he (List.not_mem_nil e)
  | cons p pre' ih =>
    intro e he hnodup
    have hcons : (p.serial :: pre'.map fun d => d.serial).Nodup := by
      simpa using hnodup
    have hnc := List.nodup_cons.1 hcons
    simp only [List.map_cons, List.flatten_cons]
    rw [actionsFor_append]
    rcases List.mem_cons.1 he with h | h
    · subst h
      rw [actionsFor_fullBlock_self]
      have hrest : actionsFor e.serial
          ((pre'.map fun p => fullBlock target iv p.serial
            ((deltas.lookup p.serial).getD 0)).flatten) = [] := by
        apply actionsFor_of_serials_ne
        intro a ha
        obtain ⟨l, hl, hal⟩ := List.mem_flatten.1 ha
        obtain ⟨q, hq, hql⟩ := List.mem_map.1 hl
        rw [← hql] at hal
        rw [serialOf_fullBlock _ _ _ _ a hal]
        intro hc
        exact hnc.1 (by rw [← hc]; exact List.mem_map_of_mem _ hq)
      rw [hrest, List.append_nil]
    · have hne : p.serial ≠ e.serial := by
        intro hc
        exact hnc.1 (by rw [hc]; exact List.mem_map_of_mem _ h)
      rw [actionsFor_fullBlock_ne _ _ _ _ _ hne, List.nil_append]
      exact ih e h hnc.2

/-- C4 (amended): if programming or committing the trigger schedule fails
for a device, `_configure_and_schedule` terminates at once with exit
status 2 (the session errors out instead of recording) and no later
device is programmed — but the devices that were already committed are
NOT cancelled: each already-committed device receives exactly its latch,
its latched-value read and its seven-action programming block ending in
its own commit; the only cancel it ever receives is its own best-effort
pre-programming cancel, and no rollback cancel follows the failure. -/
theorem commit_failure_aborts (i : SchedInputs)
    (pre : List Device) (d : Device) (post : List Device)
    (hnodup : ((pre ++ d :: post).map fun e => e.serial).Nodup)
    (hg : ∀ e ∈ pre ++ d :: post, e.grabberOk = true)
    (hread : ∀ e ∈ pre ++ d :: post, ∃ v, e.latched = some v)
    (hthr : ∀ e ∈ pre ++ d :: post, ∀ v, e.latched = some v →
      |v - host_ref_ns i| ≤ threshold_ns i)
    (hpre : ∀ e ∈ pre, e.setTimeOk = true ∧ e.setIntervalOk = true ∧
      e.commitOk = true)
    (hfail : ¬ (d.setTimeOk = true ∧ d.setIntervalOk = true ∧
      d.commitOk = true)) :
    (configure_and_schedule i (pre ++ d :: post)).2 = .exit2 ∧
    (∃ t, DevAction.setScheduleTime d.serial t
        ∈ (configure_and_schedule i (pre ++ d :: post)).1) ∧
    (∀ e ∈ pre,
      actionsFor e.serial (configure_and_schedule i (pre ++ d :: post)).1
        = DevAction.latch e.serial :: DevAction.readLatch e.serial ::
            fullBlock (host_target_ns i) (interval_us i) e.serial
              (e.latched.getD 0 - host_ref_ns i)) ∧
    (∀ e ∈ post, ∀ t, DevAction.setScheduleTime e.serial t
        ∉ (configure_and_schedule i (pre ++ d :: post)).1) := by
  have hempty := violations_empty i (pre ++ d :: post) hthr
  have hdmem : d ∈ pre ++ d :: post :=
    List.mem_append.2 (Or.inr (List.mem_cons_self d post))
  obtain ⟨vd, hvd⟩ := hread d hdmem
  have hlookd : (measuredDeltas i (pre ++ d :: post)).lookup d.serial
      = some (vd - host_ref_ns i) :=
    measuredDeltas_lookup i _ hnodup d hdmem (hg d hdmem) vd hvd
  have hlookpre : ∀ e ∈ pre, ∃ δ,
      (measuredDeltas i (pre ++ d :: post)).lookup e.serial = some δ := by
    intro e he
    have hemem : e ∈ pre ++ d :: post := List.mem_append.2 (Or.inl he)
    obtain ⟨v, hv⟩ := hread e hemem
    exact ⟨v - host_ref_ns i,
      measuredDeltas_lookup i _ hnodup e hemem (hg e hemem) v hv⟩
  have hpre := schedulePhase_healthy_prefix (host_target_ns i)
    (interval_us i) (measuredDeltas i (pre ++ d :: post)) pre (d :: post)
    (fun e he => hg e (List.mem_append.2 (Or.inl he))) hpre hlookpre
  have hfailR := schedulePhase_cons_fail (host_target_ns i) (interval_us i)
    (measuredDeltas i (pre ++ d :: post)) d post (vd - host_ref_ns i)
    (hg d hdmem) hlookd hfail
  have houtcome := hpre.2 hfailR.1
  have hsplit := serial_split_ne pre d post hnodup
  have hnodup_pre : ((pre.map fun e => e.serial)).Nodup := by
    rw [List.map_append, List.nodup_append] at hnodup
    exact hnodup.1
  have hconf : configure_and_schedule i (pre ++ d :: post) =
      ((pre ++ d :: post).filterMap (fun e =>
          if e.grabberOk then some (DevAction.latch e.serial) else none)
        ++ (pre ++ d :: post).filterMap (fun e =>
          if e.grabberOk then some (DevAction.readLatch e.serial) else none)
        ++ (schedulePhase (host_target_ns i) (interval_us i)
            (measuredDeltas i (pre ++ d :: post)) (pre ++ d :: post)).1,
       .exit2) := by
    rw [configure_and_schedule]
    simp only [hempty, if_true, houtcome]
  rw [hconf]
  refine ⟨rfl, ?_, ?_, ?_⟩
  · refine ⟨host_target_ns i + (vd - host_ref_ns i), ?_⟩
    apply List.mem_append.2
    refine Or.inr ?_
    rw [hpre.1]
    exact List.mem_append.2 (Or.inr hfailR.2.1)
  · intro e he
    have hemem : e ∈ pre ++ d :: post := List.mem_append.2 (Or.inl he)
    obtain ⟨v, hv⟩ := hread e hemem
    have hlooke : (measuredDeltas i (pre ++ d :: post)).lookup e.serial
        = some (v - host_ref_ns i) :=
      measuredDeltas_lookup i _ hnodup e hemem (hg e hemem) v hv
    rw [actionsFor_append, actionsFor_append,
      actionsFor_pass (fun s => DevAction.latch s) (fun _ => rfl)
        (pre ++ d :: post) e hemem hg hnodup,
      actionsFor_pass (fun s => DevAction.readLatch s) (fun _ => rfl)
        (pre ++ d :: post) e hemem hg hnodup,
      hpre.1, actionsFor_append,
      actionsFor_blocks (host_target_ns i) (interval_us i)
        (measuredDeltas i (pre ++ d :: post)) pre e he hnodup_pre]
    have hfailFilter : actionsFor e.serial
        (schedulePhase (host_target_ns i) (interval_us i)
          (measuredDeltas i (pre ++ d :: post)) (d :: post)).1 = [] := by
      apply actionsFor_of_serials_ne
      intro a ha
      rw [hfailR.2.2 a ha]
      exact fun hc =>
        hsplit.1 e he d (List.mem_cons_self d post) hc.symm
    rw [hfailFilter, List.append_nil, hlooke]
    have hval : (some (v - host_ref_ns i)).getD 0 = e.latched.getD 0 - host_ref_ns i := by
      rw [hv]
      rfl
    rw [hval]
    rfl
  · intro e he t hmem
    have hserne_pre : ∀ p ∈ pre, p.serial ≠ e.serial :=
      fun p hp => hsplit.1 p hp e (List.mem_cons_of_mem d he)
    have hserne_d : d.serial ≠ e.serial := hsplit.2 e he
    rcases List.mem_append.1 hmem with h | h
    · rcases List.mem_append.1 h with h2 | h2
      · obtain ⟨q, _, hq⟩ := List.mem_filterMap.1 h2
        by_cases hgq : q.grabberOk = true
        · rw [if_pos hgq] at hq
          exact absurd hq (by simp)
        · rw [if_neg hgq] at hq
          exact absurd hq (by simp)
      · obtain ⟨q, _, hq⟩ := List.mem_filterMap.1 h2
        by_cases hgq : q.grabberOk = true
        · rw [if_pos hgq] at hq
          exact absurd hq (by simp)
        · rw [if_neg hgq] at hq
          exact absurd hq (by simp)
    · rw [hpre.1] at h
      rcases List.mem_append.1 h with h2 | h2
      · obtain ⟨l, hl, hal⟩ := List.mem_flatten.1 h2
        obtain ⟨q, hq, hql⟩ := List.mem_map.1 hl
        rw [← hql] at hal
        have := serialOf_fullBlock _ _ _ _ _ hal
        exact hserne_pre q hq (by rw [← this]; rfl)
      · have := hfailR.2.2 _ h2
        exact hserne_d (by rw [← this]; rfl)

/-- The rollback property C4 asserts for a failing run: after the first
commit of serial `s` in the trace, a cancel for `s` appears. -/
def cancelledAfterCommit (s : Nat) (tr : List DevAction) : Prop :=
  DevAction.cancelSchedule s ∈
    ((tr.dropWhile fun a => decide (a ≠ DevAction.commitSchedule s)).drop 1)

instance (s : Nat) (tr : List DevAction) : Decidable (cancelledAfterCommit s tr) := by
  unfold cancelledAfterCommit
  infer_instance

/-- Device 3 of the C4 counterexample: healthy except that the
`ACTION_SCHEDULER_COMMIT` write fails. -/
def c4fail : Device := ⟨3, true, true, some 1500, true, true, false⟩

/-- Four cameras; commit fails on the third. -/
def c4devs : List Device := [wDev 1 1500, wDev 2 1500, c4fail, wDev 4 1500]

theorem c4_deltas : measuredDeltas wIn c4devs = [(1, 0), (2, 0), (3, 0), (4, 0)] := by
  decide

theorem c4_conf : configure_and_schedule wIn c4devs =
    ([DevAction.latch 1, DevAction.latch 2, DevAction.latch 3, DevAction.latch 4,
      DevAction.readLatch 1, DevAction.readLatch 2, DevAction.readLatch 3,
      DevAction.readLatch 4,
      DevAction.setTriggerSelector 1, DevAction.setTriggerSource 1,
      DevAction.setTriggerMode 1, DevAction.cancelSchedule 1,
      DevAction.setScheduleTime 1 (host_target_ns wIn + 0),
      DevAction.setScheduleInterval 1 (interval_us wIn),
      DevAction.commitSchedule 1,
      DevAction.setTriggerSelector 2, DevAction.setTriggerSource 2,
      DevAction.setTriggerMode 2, DevAction.cancelSchedule 2,
      DevAction.setScheduleTime 2 (host_target_ns wIn + 0),
      DevAction.setScheduleInterval 2 (interval_us wIn),
      DevAction.commitSchedule 2,
      DevAction.setTriggerSelector 3, DevAction.setTriggerSource 3,
      DevAction.setTriggerMode 3, DevAction.cancelSchedule 3,
      DevAction.setScheduleTime 3 (host_target_ns wIn + 0),
      DevAction.setScheduleInterval 3 (interval_us wIn),
      DevAction.commitSchedule 3],
     .exit2) := by
  have hempty : (([((1 : Nat), (0 : Int)), (2, 0), (3, 0), (4, 0)]).filter
      fun sd => threshold_ns wIn < |sd.2|).isEmpty = true := by
    simp only [wIn_threshold]
    decide
  have hsched : (schedulePhase (host_target_ns wIn) (interval_us wIn)
      [((1 : Nat), (0 : Int)), (2, 0), (3, 0), (4, 0)] c4devs).2 = none := rfl
  rw [configure_and_schedule]
  simp only [c4_deltas, hempty, if_true, hsched]
  rfl

/-- C4 (counterexample): with four healthy in-threshold cameras and a
commit failure on camera 3, `_configure_and_schedule` exits with status
2 after committing cameras 1 and 2, and neither already-committed camera
is ever cancelled after its commit — the code has no rollback path, so
the claim that "every device that was already committed is cancelled" is
false on this run. -/
theorem commit_failure_rollback_cex :
    (configure_and_schedule wIn c4devs).2 = .exit2 ∧
    DevAction.commitSchedule 1 ∈ (configure_and_schedule wIn c4devs).1 ∧
    DevAction.commitSchedule 2 ∈ (configure_and_schedule wIn c4devs).1 ∧
    ¬ cancelledAfterCommit 1 (configure_and_schedule wIn c4devs).1 ∧
    ¬ cancelledAfterCommit 2 (configure_and_schedule wIn c4devs).1 := by
  rw [c4_conf]
  refine ⟨rfl, by decide, by decide, by decide, by decide⟩

theorem commit_failure_aborts_witness :
    (configure_and_schedule wIn ([wDev 1 1500, wDev 2 1500] ++ c4fail :: [wDev 4 1500])).2 = .exit2 ∧
    (∃ t, DevAction.setScheduleTime c4fail.serial t
        ∈ (configure_and_schedule wIn ([wDev 1 1500, wDev 2 1500] ++ c4fail :: [wDev 4 1500])).1) ∧
    (∀ e ∈ [wDev 1 1500, wDev 2 1500],
      actionsFor e.serial (configure_and_schedule wIn
          ([wDev 1 1500, wDev 2 1500] ++ c4fail :: [wDev 4 1500])).1
        = DevAction.latch e.serial :: DevAction.readLatch e.serial ::
            fullBlock (host_target_ns wIn) (interval_us wIn) e.serial
              (e.latched.getD 0 - host_ref_ns wIn)) ∧
    (∀ e ∈ [wDev 4 1500], ∀ t, DevAction.setScheduleTime e.serial t
        ∉ (configure_and_schedule wIn
            ([wDev 1 1500, wDev 2 1500] ++ c4fail :: [wDev 4 1500])).1) :=
  commit_failure_aborts wIn [wDev 1 1500, wDev 2 1500] c4fail [wDev 4 1500]
    (by decide) (by decide)
    (by
      intro e he
      fin_cases he
      exacts [⟨1500, rfl⟩, ⟨1500, rfl⟩, ⟨1500, rfl⟩, ⟨1500, rfl⟩])
    (by
      intro e he v hv
      rw [wIn_host_ref, wIn_threshold]
      fin_cases he <;>
        (simp only [wDev, c4fail] at hv
         injection hv with hv
         subst hv
         decide))
    (by decide) (by decide)

/-- No entry of the delta dict carries a serial outside the device list. -/
theorem measuredDeltas_lookup_not_mem (i : SchedInputs) :
    ∀ (devs : List Device) (s : Nat),
      (∀ d ∈ devs, d.serial ≠ s) →
      (measuredDeltas i devs).lookup s = none := by
  intro devs
  induction devs with
  | nil => intro s _; rfl
  | cons e rest ih =>
    intro s h
    have hne : e.serial ≠ s := h e (List.mem_cons_self e rest)
    have ihx := ih s fun d hd => h d (List.mem_cons_of_mem e hd)
    rw [measuredDeltas, List.filterMap_cons]
    rw [measuredDeltas] at ihx
    by_cases hge : e.grabberOk = true
    · rw [if_pos hge]
      rcases hle : e.latched with _ | w
      · simp only [Option.map_none']
        exact ihx
      · simp only [Option.map_some']
        rw [List.lookup_cons]
        have hbeq : (s == e.serial) = false := by
          rw [beq_eq_false_iff_ne]
          exact fun hc => hne hc.symm
        rw [hbeq]
        exact ihx
    · rw [if_neg hge]
      exact ihx

/-- A device whose latched-value read failed has no entry in the delta
dict. -/
theorem measuredDeltas_lookup_none (i : SchedInputs) :
    ∀ (devs : List Device),
      ((devs.map fun d => d.serial).Nodup) →
      ∀ d ∈ devs, d.latched = none →
      (measuredDeltas i devs).lookup d.serial = none := by
  intro devs
  induction devs with
  | nil => intro _ d hd; exact absurd hd (List.not_mem_nil d)
  | cons e rest ih =>
    intro hnodup d hd hdl
    have hcons : (e.serial :: rest.map fun d => d.serial).Nodup := by
      simpa using hnodup
    have hnc := List.nodup_cons.1 hcons
    rcases List.mem_cons.1 hd with h | h
    · subst h
      rw [measuredDeltas, List.filterMap_cons]
      by_cases hge : d.grabberOk = true
      · rw [if_pos hge, hdl]
        simp only [Option.map_none']
        exact measuredDeltas_lookup_not_mem i rest d.serial fun e he hc =>
          hnc.1 (by rw [← hc]; exact List.mem_map_of_mem _ he)
      · rw [if_neg hge]
        exact measuredDeltas_lookup_not_mem i rest d.serial fun e he hc =>
          hnc.1 (by rw [← hc]; exact List.mem_map_of_mem _ he)
    · have hne : e.serial ≠ d.serial := by
        intro hc
        exact hnc.1 (by rw [hc]; exact List.mem_map_of_mem _ h)
      have ihx := ih hnc.2 d h hdl
      rw [measuredDeltas, List.filterMap_cons]
      rw [measuredDeltas] at ihx
      by_cases hge : e.grabberOk = true
      · rw [if_pos hge]
        rcases hle : e.latched with _ | w
        · simp only [Option.map_none']
          exact ihx
        · simp only [Option.map_some']
          rw [List.lookup_cons]
          have hbeq : (d.serial == e.serial) = false := by
            rw [beq_eq_false_iff_ne]
            exact fun hc => hne hc.symm
          rw [hbeq]
          exact ihx
      · rw [if_neg hge]
        exact ihx

/-- C5 (amended): if a device's latched-value read fails during offset
estimation, that device is skipped with a warning — it gets no measured
delta (no silent zero offset) and no scheduler property of it is ever
programmed — but the session does NOT abort: scheduling proceeds
normally for all remaining devices. -/
theorem read_failure_skips_device (i : SchedInputs)
    (pre : List Device) (d : Device) (post : List Device)
    (hnodup : ((pre ++ d :: post).map fun e => e.serial).Nodup)
    (hg : ∀ e ∈ pre ++ d :: post, e.grabberOk = true)
    (hdl : d.latched = none)
    (hread : ∀ e ∈ pre ++ post, ∃ v, e.latched = some v)
    (hflags : ∀ e ∈ pre ++ post, e.setTimeOk = true ∧
      e.setIntervalOk = true ∧ e.commitOk = true)
    (hthr : ∀ e ∈ pre ++ post, ∀ v, e.latched = some v →
      |v - host_ref_ns i| ≤ threshold_ns i) :
    (measuredDeltas i (pre ++ d :: post)).lookup d.serial = none ∧
    (configure_and_schedule i (pre ++ d :: post)).2 =
      .ok (host_target_ns i)
        ((pre ++ post).map fun e =>
          (e.serial, host_target_ns i + (e.latched.getD 0 - host_ref_ns i),
           interval_us i)) ∧
    (∀ t, DevAction.setScheduleTime d.serial t
        ∉ (configure_and_schedule i (pre ++ d :: post)).1) ∧
    DevAction.commitSchedule d.serial
      ∉ (configure_and_schedule i (pre ++ d :: post)).1 := by
  have hdmem : d ∈ pre ++ d :: post :=
    List.mem_append.2 (Or.inr (List.mem_cons_self d post))
  have hmem_of : ∀ e ∈ pre ++ post, e ∈ pre ++ d :: post := by
    intro e he
    rcases List.mem_append.1 he with h | h
    · exact List.mem_append.2 (Or.inl h)
    · exact List.mem_append.2 (Or.inr (List.mem_cons_of_mem d h))
  have hlookd : (measuredDeltas i (pre ++ d :: post)).lookup d.serial = none :=
    measuredDeltas_lookup_none i _ hnodup d hdmem hdl
  have hthr' : ∀ e ∈ pre ++ d :: post, ∀ v, e.latched = some v →
      |v - host_ref_ns i| ≤ threshold_ns i := by
    intro e he v hv
    rcases List.mem_append.1 he with h | h
    · exact hthr e (List.mem_append.2 (Or.inl h)) v hv
    · rcases List.mem_cons.1 h with h2 | h2
      · subst h2
        rw [hdl] at hv
        exact absurd hv (by simp)
      · exact hthr e (List.mem_append.2 (Or.inr h2)) v hv
  have hempty := violations_empty i (pre ++ d :: post) hthr'
  have hlooke : ∀ e ∈ pre ++ post,
      (measuredDeltas i (pre ++ d :: post)).lookup e.serial
        = some (e.latched.getD 0 - host_ref_ns i) := by
    intro e he
    obtain ⟨v, hv⟩ := hread e he
    rw [measuredDeltas_lookup i _ hnodup e (hmem_of e he)
      (hg e (hmem_of e he)) v hv, hv]
    rfl
  have hsched := schedulePhase_mixed (host_target_ns i) (interval_us i)
    (measuredDeltas i (pre ++ d :: post)) (pre ++ d :: post) hg
    (by
      intro e he hs
      rcases List.mem_append.1 he with h | h
      · exact hflags e (List.mem_append.2 (Or.inl h))
      · rcases List.mem_cons.1 h with h2 | h2
        · subst h2
          rw [hlookd] at hs
          exact absurd hs (by simp)
        · exact hflags e (List.mem_append.2 (Or.inr h2)))
  have hmap : (pre ++ d :: post).filterMap (fun e =>
      ((measuredDeltas i (pre ++ d :: post)).lookup e.serial).map
        fun δ => (e.serial, host_target_ns i + δ, interval_us i))
      = (pre ++ post).map fun e =>
        (e.serial, host_target_ns i + (e.latched.getD 0 - host_ref_ns i),
         interval_us i) := by
    rw [List.filterMap_append, List.filterMap_cons, hlookd]
    simp only [Option.map_none']
    rw [List.map_append]
    congr 1
    · exact filterMap_congr_some pre fun e he => by
        rw [hlooke e (List.mem_append.2 (Or.inl he))]
        rfl
    · exact filterMap_congr_some post fun e he => by
        rw [hlooke e (List.mem_append.2 (Or.inr he))]
        rfl
  have hconf : configure_and_schedule i (pre ++ d :: post) =
      ((pre ++ d :: post).filterMap (fun e =>
          if e.grabberOk then some (DevAction.latch e.serial) else none)
        ++ (pre ++ d :: post).filterMap (fun e =>
          if e.grabberOk then some (DevAction.readLatch e.serial) else none)
        ++ (schedulePhase (host_target_ns i) (interval_us i)
            (measuredDeltas i (pre ++ d :: post)) (pre ++ d :: post)).1,
       .ok (host_target_ns i)
        ((pre ++ post).map fun e =>
          (e.serial, host_target_ns i + (e.latched.getD 0 - host_ref_ns i),
           interval_us i))) := by
    rw [configure_and_schedule]
    simp only [hempty, if_true, hsched, hmap]
  rw [hconf]
  have hnoschedact : ∀ a ∈ (schedulePhase (host_target_ns i) (interval_us i)
      (measuredDeltas i (pre ++ d :: post)) (pre ++ d :: post)).1,
      DevAction.serialOf a ≠ d.serial := by
    intro a ha hc
    obtain ⟨e, _, hser, _, hs⟩ :=
      schedulePhase_action_serials _ _ _ _ a ha
    rw [hser] at hc
    rw [hc, hlookd] at hs
    exact absurd hs (by simp)
  refine ⟨hlookd, rfl, ?_, ?_⟩
  · intro t hmem
    rcases List.mem_append.1 hmem with h | h
    · rcases List.mem_append.1 h with h2 | h2
      · obtain ⟨q, _, hq⟩ := List.mem_filterMap.1 h2
        by_cases hgq : q.grabberOk = true
        · rw [if_pos hgq] at hq
          exact absurd hq (by simp)
        · rw [if_neg hgq] at hq
          exact absurd hq (by simp)
      · obtain ⟨q, _, hq⟩ := List.mem_filterMap.1 h2
        by_cases hgq : q.grabberOk = true
        · rw [if_pos hgq] at hq
          exact absurd hq (by simp)
        · rw [if_neg hgq] at hq
          exact absurd hq (by simp)
    · exact hnoschedact _ h rfl
  · intro hmem
    rcases List.mem_append.1 hmem with h | h
    · rcases List.mem_append.1 h with h2 | h2
      · obtain ⟨q, _, hq⟩ := List.mem_filterMap.1 h2
        by_cases hgq : q.grabberOk = true
        · rw [if_pos hgq] at hq
          exact absurd hq (by simp)
        · rw [if_neg hgq] at hq
          exact absurd hq (by simp)
      · obtain ⟨q, _, hq⟩ := List.mem_filterMap.1 h2
        by_cases hgq : q.grabberOk = true
        · rw [if_pos hgq] at hq
          exact absurd hq (by simp)
        · rw [if_neg hgq] at hq
          exact absurd hq (by simp)
    · exact hnoschedact _ h rfl

/-- Device 1 of the C5 counterexample: its `TIMESTAMP_LATCH_VALUE` read
fails. -/
def c5bad : Device := ⟨1, true, true, none, true, true, true⟩

theorem c5_conf : configure_and_schedule wIn [c5bad, wDev 2 1600] =
    ([DevAction.latch 1, DevAction.latch 2,
      DevAction.readLatch 1, DevAction.readLatch 2,
      DevAction.setTriggerSelector 2, DevAction.setTriggerSource 2,
      DevAction.setTriggerMode 2, DevAction.cancelSchedule 2,
      DevAction.setScheduleTime 2 (host_target_ns wIn + 100),
      DevAction.setScheduleInterval 2 (interval_us wIn),
      DevAction.commitSchedule 2],
     .ok (host_target_ns wIn) [(2, host_target_ns wIn + 100, interval_us wIn)]) := by
  have hdeltas : measuredDeltas wIn [c5bad, wDev 2 1600] = [(2, 100)] := by
    decide
  have hempty : (([((2 : Nat), (100 : Int))]).filter
      fun sd => threshold_ns wIn < |sd.2|).isEmpty = true := by
    simp only [wIn_threshold]
    decide
  have hsched : schedulePhase (host_target_ns wIn) (interval_us wIn)
      [((2 : Nat), (100 : Int))] [c5bad, wDev 2 1600] =
      ([DevAction.setTriggerSelector 2, DevAction.setTriggerSource 2,
        DevAction.setTriggerMode 2, DevAction.cancelSchedule 2,
        DevAction.setScheduleTime 2 (host_target_ns wIn + 100),
        DevAction.setScheduleInterval 2 (interval_us wIn),
        DevAction.commitSchedule 2],
       some [(2, host_target_ns wIn + 100, interval_us wIn)]) := rfl
  rw [configure_and_schedule]
  simp only [hdeltas, hempty, if_true, hsched]
  rfl

/-- C5 (counterexample): camera 1's latched-value read fails, yet the
whole session does not abort — `_configure_and_schedule` continues,
programs and commits camera 2's schedule, and returns normally (camera 1
is merely skipped with a warning).  The claim that estimation failure is
fatal and "scheduling does not proceed" is false on this run. -/
theorem read_failure_abort_cex :
    c5bad.latched = none ∧
    (configure_and_schedule wIn [c5bad, wDev 2 1600]).2 ≠ .exit2 ∧
    (configure_and_schedule wIn [c5bad, wDev 2 1600]).2 =
      .ok (host_target_ns wIn) [(2, host_target_ns wIn + 100, interval_us wIn)] ∧
    DevAction.setScheduleTime 2 (host_target_ns wIn + 100)
      ∈ (configure_and_schedule wIn [c5bad, wDev 2 1600]).1 ∧
    DevAction.commitSchedule 2 ∈ (configure_and_schedule wIn [c5bad, wDev 2 1600]).1 ∧
    (∀ t, DevAction.setScheduleTime 1 t
        ∉ (configure_and_schedule wIn [c5bad, wDev 2 1600]).1) := by
  rw [c5_conf]
  refine ⟨rfl, by simp, rfl, by simp, by simp, ?_⟩
  intro t hmem
  simp at hmem

theorem read_failure_skips_device_witness :
    (measuredDeltas wIn ([] ++ c5bad :: [wDev 2 1600])).lookup c5bad.serial = none ∧
    (configure_and_schedule wIn ([] ++ c5bad :: [wDev 2 1600])).2 =
      .ok (host_target_ns wIn)
        ((([] : List Device) ++ [wDev 2 1600]).map fun e =>
          (e.serial, host_target_ns wIn + (e.latched.getD 0 - host_ref_ns wIn),
           interval_us wIn)) ∧
    (∀ t, DevAction.setScheduleTime c5bad.serial t
        ∉ (configure_and_schedule wIn ([] ++ c5bad :: [wDev 2 1600])).1) ∧
    DevAction.commitSchedule c5bad.serial
      ∉ (configure_and_schedule wIn ([] ++ c5bad :: [wDev 2 1600])).1 :=
  read_failure_skips_device wIn [] c5bad [wDev 2 1600]
    (by decide) (by decide) (by decide)
    (by
      intro e he
      fin_cases he
      exact ⟨1600, rfl⟩)
    (by decide)
    (by
      intro e he v hv
      rw [wIn_host_ref, wIn_threshold]
      fin_cases he
      simp only [wDev] at hv
      injection hv with hv
      subst hv
      decide)

/-- Full evaluation of `_configure_and_schedule` on healthy devices:
the action trace and the returned schedules. -/
theorem configure_ok_of_healthy (i : SchedInputs) (devs : List Device)
    (hnodup : (devs.map fun d => d.serial).Nodup)
    (hg : ∀ d ∈ devs, d.grabberOk = true)
    (hflags : ∀ d ∈ devs,
      d.setTimeOk = true ∧ d.setIntervalOk = true ∧ d.commitOk = true)
    (hthr : ∀ d ∈ devs, ∀ v, d.latched = some v →
      |v - host_ref_ns i| ≤ threshold_ns i)
    (hread : ∀ d ∈ devs, ∃ v, d.latched = some v) :
    configure_and_schedule i devs =
      ((devs.filterMap fun d =>
          if d.grabberOk then some (DevAction.latch d.serial) else none)
        ++ (devs.filterMap fun d =>
          if d.grabberOk then some (DevAction.readLatch d.serial) else none)
        ++ ((devs.map fun e => fullBlock (host_target_ns i) (interval_us i)
            e.serial (e.latched.getD 0 - host_ref_ns i)).flatten),
       .ok (host_target_ns i)
        (devs.map fun d =>
          (d.serial, host_target_ns i + (d.latched.getD 0 - host_ref_ns i),
           interval_us i))) := by
  have hempty := violations_empty i devs hthr
  have hlook : ∀ d ∈ devs,
      (measuredDeltas i devs).lookup d.serial
        = some (d.latched.getD 0 - host_ref_ns i) := by
    intro d hd
    obtain ⟨v, hv⟩ := hread d hd
    rw [measuredDeltas_lookup i devs hnodup d hd (hg d hd) v hv, hv]
    rfl
  have hsched := schedulePhase_mixed (host_target_ns i) (interval_us i)
    (measuredDeltas i devs) devs hg (fun d hd _ => hflags d hd)
  have hacts := schedulePhase_healthy_prefix (host_target_ns i) (interval_us i)
    (measuredDeltas i devs) devs [] hg hflags
    (fun e he => ⟨e.latched.getD 0 - host_ref_ns i, hlook e he⟩)
  have hmap : devs.filterMap (fun d =>
      ((measuredDeltas i devs).lookup d.serial).map
        fun δ => (d.serial, host_target_ns i + δ, interval_us i))
      = devs.map fun d =>
        (d.serial, host_target_ns i + (d.latched.getD 0 - host_ref_ns i),
         interval_us i) :=
    filterMap_congr_some devs fun d hd => by
      rw [hlook d hd]
      rfl
  have hacts1 : (schedulePhase (host_target_ns i) (interval_us i)
      (measuredDeltas i devs) devs).1 =
      (devs.map fun e => fullBlock (host_target_ns i) (interval_us i)
        e.serial (e.latched.getD 0 - host_ref_ns i)).flatten := by
    have h1 := hacts.1
    rw [List.append_nil] at h1
    rw [h1]
    rw [show schedulePhase (host_target_ns i) (interval_us i)
        (measuredDeltas i devs) [] = ([], some []) from rfl]
    rw [List.append_nil]
    congr 1
    exact List.map_congr_left fun e he => by
      rw [hlook e he]
      rfl
  rw [configure_and_schedule]
  simp only [hempty, if_true, hsched, hmap, hacts1]

/-- C8 (amended): the code performs no validation of the trigger frame
rate or the start delay before touching the devices: the trigger rate is
the constant `TRIGGER_INTERVAL_FPS = 30.0` in `main` (not configurable),
and any `--start-delay-s` value — including a non-positive one — is
accepted.  Even with `start_delay_s ≤ 0` every healthy device is
latched, read, programmed and committed, with
`host_target_ns = host_now_ns + int(start_delay_s * 1e9)` possibly in
the past. -/
theorem no_config_validation (i : SchedInputs) (devs : List Device)
    (hdelay : i.start_delay_s ≤ 0)
    (hnodup : (devs.map fun d => d.serial).Nodup)
    (hg : ∀ d ∈ devs, d.grabberOk = true)
    (hflags : ∀ d ∈ devs,
      d.setTimeOk = true ∧ d.setIntervalOk = true ∧ d.commitOk = true)
    (hthr : ∀ d ∈ devs, ∀ v, d.latched = some v →
      |v - host_ref_ns i| ≤ threshold_ns i)
    (hread : ∀ d ∈ devs, ∃ v, d.latched = some v) :
    TRIGGER_INTERVAL_FPS = 30 ∧
    defaultStartDelayS = 10 ∧
    (configure_and_schedule i devs).2 =
      .ok (host_target_ns i)
        (devs.map fun d =>
          (d.serial, host_target_ns i + (d.latched.getD 0 - host_ref_ns i),
           interval_us i)) ∧
    (∀ d ∈ devs, DevAction.latch d.serial
        ∈ (configure_and_schedule i devs).1) ∧
    (∀ d ∈ devs, DevAction.commitSchedule d.serial
        ∈ (configure_and_schedule i devs).1) := by
  have hconf := configure_ok_of_healthy i devs hnodup hg hflags hthr hread
  rw [hconf]
  refine ⟨rfl, rfl, rfl, ?_, ?_⟩
  · intro d hd
    apply List.mem_append.2
    apply Or.inl
    apply List.mem_append.2
    apply Or.inl
    exact List.mem_filterMap.2 ⟨d, hd, by rw [if_pos (hg d hd)]⟩
  · intro d hd
    apply List.mem_append.2
    apply Or.inr
    apply List.mem_flatten.2
    refine ⟨fullBlock (host_target_ns i) (interval_us i) d.serial
      (d.latched.getD 0 - host_ref_ns i), List.mem_map_of_mem _ hd, ?_⟩
    simp [fullBlock]

/-- Inputs of the C8 counterexample: a start delay of 0 s (non-positive)
that the code accepts without any validation. -/
def c8In : SchedInputs := ⟨1000, 2000, 5000, 0, 3, 30⟩

theorem c8In_threshold : threshold_ns c8In = 3000000 := by
  norm_num [threshold_ns, pyTrunc, c8In]

theorem c8_conf : configure_and_schedule c8In [wDev 1 1500] =
    ([DevAction.latch 1, DevAction.readLatch 1,
      DevAction.setTriggerSelector 1, DevAction.setTriggerSource 1,
      DevAction.setTriggerMode 1, DevAction.cancelSchedule 1,
      DevAction.setScheduleTime 1 (host_target_ns c8In + 0),
      DevAction.setScheduleInterval 1 (interval_us c8In),
      DevAction.commitSchedule 1],
     .ok (host_target_ns c8In) [(1, host_target_ns c8In + 0, interval_us c8In)]) := by
  have hdeltas : measuredDeltas c8In [wDev 1 1500] = [(1, 0)] := by decide
  have hempty : (([((1 : Nat), (0 : Int))]).filter
      fun sd => threshold_ns c8In < |sd.2|).isEmpty = true := by
    simp only [c8In_threshold]
    decide
  have hsched : schedulePhase (host_target_ns c8In) (interval_us c8In)
      [((1 : Nat), (0 : Int))] [wDev 1 1500] =
      ([DevAction.setTriggerSelector 1, DevAction.setTriggerSource 1,
        DevAction.setTriggerMode 1, DevAction.cancelSchedule 1,
        DevAction.setScheduleTime 1 (host_target_ns c8In + 0),
        DevAction.setScheduleInterval 1 (interval_us c8In),
        DevAction.commitSchedule 1],
       some [(1, host_target_ns c8In + 0, interval_us c8In)]) := rfl
  rw [configure_and_schedule]
  simp only [hdeltas, hempty, if_true, hsched]
  rfl

/-- C8 (counterexample): with the non-positive start delay 0 s the
coordinator performs no rejection at all — the device is latched, read,
programmed and committed, so "when these configuration values are
invalid no device property is read or written" is false; the trigger
rate is a hard-coded constant that is never validated either. -/
theorem config_validation_cex :
    c8In.start_delay_s ≤ 0 ∧
    (configure_and_schedule c8In [wDev 1 1500]).1 ≠ [] ∧
    DevAction.latch 1 ∈ (configure_and_schedule c8In [wDev 1 1500]).1 ∧
    DevAction.readLatch 1 ∈ (configure_and_schedule c8In [wDev 1 1500]).1 ∧
    DevAction.setScheduleTime 1 (host_target_ns c8In + 0)
      ∈ (configure_and_schedule c8In [wDev 1 1500]).1 ∧
    DevAction.commitSchedule 1 ∈ (configure_and_schedule c8In [wDev 1 1500]).1 ∧
    (configure_and_schedule c8In [wDev 1 1500]).2 =
      .ok (host_target_ns c8In) [(1, host_target_ns c8In + 0, interval_us c8In)] := by
  rw [c8_conf]
  refine ⟨?_, by simp, by simp, by simp, by simp, by simp, rfl⟩
  norm_num [c8In]

theorem no_config_validation_witness :
    TRIGGER_INTERVAL_FPS = 30 ∧
    defaultStartDelayS = 10 ∧
    (configure_and_schedule c8In [wDev 1 1500]).2 =
      .ok (host_target_ns c8In)
        ([wDev 1 1500].map fun d =>
          (d.serial, host_target_ns c8In + (d.latched.getD 0 - host_ref_ns c8In),
           interval_us c8In)) ∧
    (∀ d ∈ [wDev 1 1500], DevAction.latch d.serial
        ∈ (configure_and_schedule c8In [wDev 1 1500]).1) ∧
    (∀ d ∈ [wDev 1 1500], DevAction.commitSchedule d.serial
        ∈ (configure_and_schedule c8In [wDev 1 1500]).1) :=
  no_config_validation c8In [wDev 1 1500]
    (by norm_num [c8In])
    (by decide) (by decide) (by decide)
    (by
      intro d hd v hv
      rw [show host_ref_ns c8In = 1500 from by decide, c8In_threshold]
      fin_cases hd
      simp only [wDev] at hv
      injection hv with hv
      subst hv
      decide)
    (by
      intro d hd
      fin_cases hd
      exact ⟨1500, rfl⟩)

/-! ## Queue sink, listener and the capture worker loop (C9)

`allocate_queue_sink` creates a `QueueSink` with
`_RawQueueSinkListener` and calls `sink.alloc_and_queue_buffers(500)`.
The listener is minimal: `sink_connected` returns `True` and
`frames_queued` does nothing — it keeps no state whatsoever, so there is
no "paused" flag anywhere.

`record_raw_frames`' loop is `while time.time_ns() < scheduled_end_ns:`
poll ffmpeg (MP4 mode only), `try_pop_output_buffer()` (sleep 1 ms and
retry on `None`), process the frame (CSV row, raw/MP4 write; an
`OSError`/`ValueError` while writing breaks the loop).  We model the
environment of each iteration (clock value, ffmpeg liveness, frames
arriving into the device queue, write outcome); the queue has the fixed
500-buffer pool, arrivals beyond the pool are lost on the device side,
and the worker pops at most one buffer per iteration. -/

/-- `sink.alloc_and_queue_buffers(500)`. -/
def BUFFER_POOL_SIZE : Nat := 500

/-- `_RawQueueSinkListener.sink_connected` returns `True`. -/
def sink_connected : Bool := true

/-- `_RawQueueSinkListener.frames_queued` returns immediately; the
listener carries no mutable state (type `Unit`), hence no pause flag. -/
def frames_queued : Unit → Unit := fun u => u

/-- Environment of one worker-loop iteration. -/
structure Tick where
  now_ns : Int
  ffmpegDead : Bool
  arrivals : Nat
  writeFails : Bool
  deriving Repr, DecidableEq

/-- Why the loop stopped. -/
inductive StopReason where
  | endTime
  | ffmpegDied
  | writeFailed
  | traceEnded
  deriving Repr, DecidableEq

/-- Worker-visible state: device-queue length and `frame_count`. -/
structure WorkerState where
  qlen : Nat
  frames : Nat
  deriving Repr, DecidableEq

/-- The capture loop of `record_raw_frames` (frame processing abstracted
to its success/failure; file contents are modelled by
`record_raw_frames` above). -/
def runWorker (hasFfmpeg : Bool) (endNs : Int) :
    List Tick → WorkerState → StopReason × WorkerState
  | [], st => (.traceEnded, st)
  | t :: rest, st =>
    let q1 := min (st.qlen + t.arrivals) BUFFER_POOL_SIZE
    if endNs ≤ t.now_ns then (.endTime, ⟨q1, st.frames⟩)
    else if hasFfmpeg ∧ t.ffmpegDead then (.ffmpegDied, ⟨q1, st.frames⟩)
    else if q1 = 0 then runWorker hasFfmpeg endNs rest ⟨q1, st.frames⟩
    else if t.writeFails then (.writeFailed, ⟨q1 - 1, st.frames⟩)
    else runWorker hasFfmpeg endNs rest ⟨q1 - 1, st.frames + 1⟩

/-- C9 (amended): the queue sink has a fixed 500-buffer pool and a
minimal listener (`sink_connected` accepts, `frames_queued` is a no-op
with no state), so no paused condition exists for the worker to observe;
in raw mode, in any run without write failures the worker stops only
when the scheduled end time is reached (or when the environment trace
ends), regardless of the queue reaching capacity — queue saturation
never stops a worker early, and each worker is a function of its own
device's environment only. -/
theorem no_backpressure_stop (endNs : Int) :
    BUFFER_POOL_SIZE = 500 ∧
    sink_connected = true ∧
    (∀ u : Unit, frames_queued u = u) ∧
    ∀ ticks : List Tick, (∀ t ∈ ticks, t.writeFails = false) →
      ∀ st : WorkerState,
        (runWorker false endNs ticks st).1 = .endTime ∨
        (runWorker false endNs ticks st).1 = .traceEnded := by
  refine ⟨rfl, rfl, fun _ => rfl, ?_⟩
  intro ticks
  induction ticks with
  | nil => intro _ st; exact Or.inr rfl
  | cons t rest ih =>
    intro hw st
    have hwt : t.writeFails = false := hw t (List.mem_cons_self t rest)
    have ihx := ih fun t' ht' => hw t' (List.mem_cons_of_mem t ht')
    rw [runWorker]
    by_cases hend : endNs ≤ t.now_ns
    · rw [if_pos hend]
      exact Or.inl rfl
    · rw [if_neg hend, if_neg (by simp)]
      by_cases hq : min (st.qlen + t.arrivals) BUFFER_POOL_SIZE = 0
      · rw [if_pos hq]
        exact ihx _
      · rw [if_neg hq, if_neg (by rw [hwt]; simp)]
        exact ihx _

/-- Environment of the C9 counterexample: 600 frames arrive at once
(full 500-buffer pool) before the end time; the worker keeps draining. -/
def c9ticks : List Tick :=
  [⟨0, false, 600, false⟩, ⟨1, false, 0, false⟩, ⟨2, false, 0, false⟩,
   ⟨1000, false, 0, false⟩]

/-- C9 (counterexample): the device queue reaches its 500-buffer
capacity on the first iteration well before the session end, yet the
worker does not stop early — it keeps popping frames and stops with
reason `endTime` only when the clock passes the scheduled end, and the
listener exposes no paused state at all.  The claimed paused-state stop
signal does not exist. -/
theorem backpressure_pause_cex :
    min (0 + 600) BUFFER_POOL_SIZE = BUFFER_POOL_SIZE ∧
    (runWorker false 1000 c9ticks ⟨0, 0⟩).1 = .endTime ∧
    (runWorker false 1000 c9ticks ⟨0, 0⟩).1 ≠ .ffmpegDied ∧
    (runWorker false 1000 c9ticks ⟨0, 0⟩).2.frames = 3 ∧
    sink_connected = true ∧
    (∀ u : Unit, frames_queued u = u) := by
  refine ⟨by decide, by decide, by decide, by decide, rfl, fun _ => rfl⟩

theorem no_backpressure_stop_witness :
    (runWorker false 1000 c9ticks ⟨0, 0⟩).1 = .endTime ∨
    (runWorker false 1000 c9ticks ⟨0, 0⟩).1 = .traceEnded :=
  (no_backpressure_stop 1000).2.2.2 c9ticks (by decide) ⟨0, 0⟩

/-! ## Cross-device sync check (`cmd_sync_check`, s13_raw_tool.py)

Per camera the command loads the CSV rows and builds
`ts_map[frame_num] = ts` (a dict: later rows overwrite, insertion order
of first occurrence).  With at least two cameras it intersects the frame
numbers (`set(first.keys())` then `&=` the rest), sorts them by numeric
value, computes `diff = max - min` of the per-camera timestamps for each
common frame, reports mean/max/p99 of the diffs, collects the frames
whose diff exceeds `threshold_ns = int(threshold_ms * 1e6)`, and returns
`EXIT_OK` (PASS) iff no frame was flagged, else `EXIT_FAIL`.

Frame numbers are zero-padded decimal strings of uniform width within a
session (`f"{n:04}"`), so string keys and set/sort order coincide with
their numeric values; we key by `Nat` directly.  `p99` uses
`int(len(diffs) * 0.99)` in floating point; we model the exact
`len * 99 / 100`, which can differ by one at a few lengths — no claim
depends on the p99 value.  The violation records also carry the serials
holding the max/min timestamp (printing only); we keep the flagged frame
numbers with their spreads. -/

/-- One `ts_map[frame_num] = ts` dict assignment: overwrite, or append a
new key. -/
def dictInsert (m : List (Nat × Int)) (k : Nat) (v : Int) : List (Nat × Int) :=
  if (m.map Prod.fst).contains k then
    m.map fun p => if p.1 = k then (k, v) else p
  else m ++ [(k, v)]

/-- Building a camera's `ts_map` from its CSV rows. -/
def buildTsMap (rows : List (Nat × Int)) : List (Nat × Int) :=
  rows.foldl (fun m r => dictInsert m r.1 r.2) []

/-- Stable insertion into a sorted list (used to model Python's
`sorted`, whose only contract here is a stable ascending sort). -/
def insertSorted (k : Nat) : List Nat → List Nat
  | [] => [k]
  | x :: xs => if k ≤ x then k :: x :: xs else x :: insertSorted k xs

/-- Ascending sort of frame numbers (`sorted(common_frames, key=int)`). -/
def sortNat (l : List Nat) : List Nat := l.foldr insertSorted []

/-- Stable insertion into a sorted diff list. -/
def insertSortedInt (k : Int) : List Int → List Int
  | [] => [k]
  | x :: xs => if k ≤ x then k :: x :: xs else x :: insertSortedInt k xs

/-- Ascending sort of the diffs (`sorted(diffs)`). -/
def sortInt (l : List Int) : List Int := l.foldr insertSortedInt []

/-- The frame numbers common to all cameras, sorted numerically
(intersection of the first camera's keys with every other camera's
keys). -/
def commonFrames (maps : List (List (Nat × Int))) : List Nat :=
  match maps with
  | [] => []
  | m :: rest =>
    sortNat ((m.map Prod.fst).filter fun k =>
      rest.all fun m' => (m'.map Prod.fst).contains k)

/-- Maximum of a timestamp list (`max(ts_values)`, nonempty in use). -/
def listMax (l : List Int) : Int := l.foldl max (l.headD 0)

/-- Minimum of a timestamp list (`min(ts_values)`). -/
def listMin (l : List Int) : Int := l.foldl min (l.headD 0)

/-- `max - min` of the per-camera timestamps at common frame `k`. -/
def spreadAt (maps : List (List (Nat × Int))) (k : Nat) : Int :=
  let vs := maps.map fun m => (m.lookup k).getD 0
  listMax vs - listMin vs

/-- What `sync-check` reports. -/
structure SyncReport where
  mean : ℚ
  maxDiff : Int
  p99 : Int
  violations : List (Nat × Int)
  exitCode : Nat
  deriving Repr, DecidableEq

/-- `EXIT_OK = 0`, `EXIT_FAIL = 1`, `EXIT_ERROR = 2`. -/
def EXIT_OK : Nat := 0

/-- `EXIT_FAIL = 1`. -/
def EXIT_FAIL : Nat := 1

/-- `cmd_sync_check` on the per-camera CSV rows (cameras with a CSV
file, in directory order): `.error` models the `EXIT_ERROR` paths. -/
def cmd_sync_check (cams : List (Nat × List (Nat × Int)))
    (threshold_ms : ℚ) : Except String SyncReport :=
  let threshold_ns := pyTrunc (threshold_ms * 1000000)
  if cams.length < 2 then .error "need at least 2 cameras for sync check"
  else
    let maps := cams.map fun c => buildTsMap c.2
    let common := commonFrames maps
    if common.isEmpty then .error "no common frames across cameras"
    else
      let diffs := common.map (spreadAt maps)
      let violations := (common.map fun k => (k, spreadAt maps k)).filter
        fun kv => threshold_ns < kv.2
      .ok { mean := (diffs.foldl (· + ·) 0 : ℚ) / (diffs.length : ℚ),
            maxDiff := listMax diffs,
            p99 := (sortInt diffs).getD
              (min (diffs.length * 99 / 100) (diffs.length - 1)) 0,
            violations := violations,
            exitCode := if violations.isEmpty then EXIT_OK else EXIT_FAIL }

/-- The per-camera frame→timestamp maps the sync check builds. -/
def syncMaps (cams : List (Nat × List (Nat × Int))) : List (List (Nat × Int)) :=
  cams.map fun c => buildTsMap c.2

/-- The per-frame spreads `max - min` over the common frames, in common
frame order (the `diffs` list of `cmd_sync_check`). -/
def syncDiffs (cams : List (Nat × List (Nat × Int))) : List Int :=
  (commonFrames (syncMaps cams)).map (spreadAt (syncMaps cams))

/-- A camera CSV whose rows cover the frame numbers `0..299` once each,
with per-frame timestamps given by `f` (the C6 scenario shape). -/
def scenRows (f : Nat → Int) : List (Nat × Int) :=
  (List.range 300).map fun k => (k, f k)

/-- The per-frame spread of a family of per-camera timestamp functions. -/
def scenSpread (fs : List (Nat → Int)) (k : Nat) : Int :=
  listMax (fs.map fun f => f k) - listMin (fs.map fun f => f k)

/-! ### Sync-check evaluation lemmas -/

theorem insertSorted_of_le (k : Nat) (l : List Nat) (h : ∀ x ∈ l, k ≤ x) :
    insertSorted k l = k :: l := by
  cases l with
  | nil => rfl
  | cons x xs => simp only [insertSorted, if_pos (h x (List.mem_cons_self x xs))]

theorem sortNat_of_pairwise (l : List Nat) (h : l.Pairwise (· ≤ ·)) :
    sortNat l = l := by
  induction l with
  | nil => rfl
  | cons x xs ih =>
    rcases List.pairwise_cons.mp h with ⟨hx, hxs⟩
    show insertSorted x (sortNat xs) = x :: xs
    rw [ih hxs, insertSorted_of_le x xs hx]

theorem sortNat_range (n : Nat) : sortNat (List.range n) = List.range n :=
  sortNat_of_pairwise _ (List.pairwise_le_range n)

theorem dictInsert_not_mem (m : List (Nat × Int)) (k : Nat) (v : Int)
    (h : k ∉ m.map Prod.fst) : dictInsert m k v = m ++ [(k, v)] := by
  rw [dictInsert, if_neg]
  intro hc
  exact h (by simpa using hc)

theorem foldl_dictInsert_append (rows : List (Nat × Int)) :
    ∀ acc : List (Nat × Int), (rows.map Prod.fst).Nodup →
      (∀ k ∈ rows.map Prod.fst, k ∉ acc.map Prod.fst) →
      rows.foldl (fun m r => dictInsert m r.1 r.2) acc = acc ++ rows := by
  induction rows with
  | nil => intro acc _ _; simp
  | cons r rs ih =>
    intro acc hnd hdisj
    rw [List.map_cons, List.nodup_cons] at hnd
    have h1 : r.1 ∉ acc.map Prod.fst :=
      hdisj r.1 (by rw [List.map_cons]; exact List.mem_cons_self _ _)
    have hdisj' : ∀ k ∈ rs.map Prod.fst, k ∉ (acc ++ [(r.1, r.2)]).map Prod.fst := by
      intro k hk hc
      rw [List.map_append, List.mem_append] at hc
      rcases hc with hca | hcr
      · exact hdisj k (by rw [List.map_cons]; exact List.mem_cons_of_mem _ hk) hca
      · have hk1 : k = r.1 := by simpa using hcr
        subst hk1
        exact hnd.1 hk
    rw [List.foldl_cons, dictInsert_not_mem acc r.1 r.2 h1,
      ih (acc ++ [(r.1, r.2)]) hnd.2 hdisj']
    simp

theorem buildTsMap_of_nodup (rows : List (Nat × Int))
    (h : (rows.map Prod.fst).Nodup) : buildTsMap rows = rows := by
  rw [buildTsMap, foldl_dictInsert_append rows [] h (by intro k _ hc; simp at hc)]
  exact List.nil_append rows

theorem scenRows_keys (f : Nat → Int) :
    (scenRows f).map Prod.fst = List.range 300 := by
  rw [scenRows, List.map_map]
  exact List.map_id _

theorem commonFrames_scen (fs : List (Nat → Int)) (hne : fs ≠ []) :
    commonFrames (fs.map scenRows) = List.range 300 := by
  cases fs with
  | nil => exact absurd rfl hne
  | cons f rest =>
    rw [List.map_cons]
    show sortNat (((scenRows f).map Prod.fst).filter fun k =>
      (rest.map scenRows).all fun m' => (m'.map Prod.fst).contains k) = List.range 300
    have hall : ∀ k ∈ List.range 300,
        ((rest.map scenRows).all fun m' => (m'.map Prod.fst).contains k) = true := by
      intro k hk
      rw [List.all_eq_true]
      intro m' hm'
      obtain ⟨g, _, rfl⟩ := List.mem_map.mp hm'
      exact List.elem_eq_true_of_mem (by rw [scenRows_keys]; exact hk)
    rw [scenRows_keys, List.filter_eq_self.mpr hall, sortNat_range]

theorem lookup_map_of_mem (f : Nat → Int) (k : Nat) (l : List Nat) (hk : k ∈ l) :
    List.lookup k (l.map fun i => (i, f i)) = some (f k) := by
  induction l with
  | nil => cases hk
  | cons x xs ih =>
    by_cases hx : k = x
    · subst hx
      rw [List.map_cons]
      exact List.lookup_cons_self
    · rw [List.map_cons, List.lookup_cons]
      have hbeq : (k == x) = false := beq_eq_false_iff_ne.mpr hx
      rw [hbeq]
      have hk' : k ∈ xs := by
        rcases List.mem_cons.mp hk with h | h
        · exact absurd h hx
        · exact h
      exact ih hk'

theorem lookup_scenRows (f : Nat → Int) (k : Nat) (hk : k < 300) :
    (scenRows f).lookup k = some (f k) := by
  rw [scenRows]
  exact lookup_map_of_mem f k (List.range 300) (List.mem_range.mpr hk)

theorem spreadAt_scen (fs : List (Nat → Int)) (k : Nat) (hk : k < 300) :
    spreadAt (fs.map scenRows) k = scenSpread fs k := by
  show listMax ((fs.map scenRows).map fun m => (m.lookup k).getD 0) -
      listMin ((fs.map scenRows).map fun m => (m.lookup k).getD 0) =
    listMax (fs.map fun f => f k) - listMin (fs.map fun f => f k)
  have hvs : (fs.map scenRows).map (fun m => (m.lookup k).getD 0) =
      fs.map fun f => f k := by
    rw [List.map_map]
    exact List.map_congr_left fun f _ => by
      show ((scenRows f).lookup k).getD 0 = f k
      rw [lookup_scenRows f k hk]
      rfl
  rw [hvs]

theorem filter_eq_singleton_of_iff (p : Nat → Bool) (a : Nat) :
    ∀ l : List Nat, l.Nodup → a ∈ l → (∀ x ∈ l, p x = true ↔ x = a) →
      l.filter p = [a] := by
  intro l
  induction l with
  | nil => intro _ h _; cases h
  | cons x xs ih =>
    intro hnd hmem hp
    rw [List.nodup_cons] at hnd
    by_cases hx : x = a
    · subst hx
      rw [List.filter_cons, if_pos ((hp x (List.mem_cons_self x xs)).mpr rfl)]
      have hnil : xs.filter p = [] := List.filter_eq_nil_iff.mpr (by
        intro y hy hpy
        have hya : y = x := (hp y (List.mem_cons_of_mem x hy)).mp hpy
        exact hnd.1 (hya ▸ hy))
      rw [hnil]
    · have hpx : ¬ p x = true := fun hc => hx ((hp x (List.mem_cons_self x xs)).mp hc)
      rw [List.filter_cons, if_neg hpx]
      have hmem' : a ∈ xs := by
        rcases List.mem_cons.mp hmem with h | h
        · exact absurd h.symm hx
        · exact h
      exact ih hnd.2 hmem' fun y hy => hp y (List.mem_cons_of_mem x hy)

theorem exit_iff_empty (vs : List (Nat × Int)) :
    ((if vs.isEmpty then EXIT_OK else EXIT_FAIL) = EXIT_OK ↔ vs = []) := by
  cases vs with
  | nil => simp
  | cons v vt => simp [EXIT_OK, EXIT_FAIL]

theorem exit_or (vs : List (Nat × Int)) :
    (if vs.isEmpty then EXIT_OK else EXIT_FAIL) = EXIT_OK ∨
    (if vs.isEmpty then EXIT_OK else EXIT_FAIL) = EXIT_FAIL := by
  by_cases hv : vs.isEmpty = true
  · exact Or.inl (if_pos hv)
  · exact Or.inr (if_neg hv)

/-- Everything `cmd_sync_check` reports on its success path, read off the
definition: violations are exactly the common frames whose spread exceeds
`int(threshold_ms * 1e6)`, the statistics are mean/max/p99 of the spread
list, and the verdict is `EXIT_OK` iff no frame was flagged (else
`EXIT_FAIL`). -/
theorem sync_check_ok_spec (cams : List (Nat × List (Nat × Int)))
    (threshold_ms : ℚ) (r : SyncReport)
    (hok : cmd_sync_check cams threshold_ms = .ok r) :
    (r.violations = ((commonFrames (syncMaps cams)).map
        fun k => (k, spreadAt (syncMaps cams) k)).filter
        fun kv => pyTrunc (threshold_ms * 1000000) < kv.2) ∧
    r.mean = ((syncDiffs cams).foldl (· + ·) 0 : ℚ) / ((syncDiffs cams).length : ℚ) ∧
    r.maxDiff = listMax (syncDiffs cams) ∧
    r.p99 = (sortInt (syncDiffs cams)).getD
        (min ((syncDiffs cams).length * 99 / 100) ((syncDiffs cams).length - 1)) 0 ∧
    (r.exitCode = EXIT_OK ↔ r.violations = []) ∧
    (r.exitCode = EXIT_OK ∨ r.exitCode = EXIT_FAIL) := by
  simp only [cmd_sync_check] at hok
  split at hok
  · exact absurd hok (by simp)
  · split at hok
    · exact absurd hok (by simp)
    · injection hok with h
      subst h
      exact ⟨rfl, rfl, rfl, rfl, exit_iff_empty _, exit_or _⟩

theorem pyTrunc_one_ms : pyTrunc ((1 : ℚ) * 1000000) = 1000000 := by
  norm_num [pyTrunc]

theorem pyTrunc_ten_ms : pyTrunc ((10 : ℚ) * 1000000) = 10000000 := by
  norm_num [pyTrunc]

theorem pyTrunc_e6 : pyTrunc ((1000000 : ℚ)) = 1000000 := by
  norm_num [pyTrunc]

theorem buildTsMap_scenRows (f : Nat → Int) : buildTsMap (scenRows f) = scenRows f :=
  buildTsMap_of_nodup (scenRows f) (by rw [scenRows_keys]; exact List.nodup_range 300)

theorem map_buildTsMap_scenRows (fs : List (Nat → Int)) :
    (fs.map scenRows).map buildTsMap = fs.map scenRows := by
  induction fs with
  | nil => rfl
  | cons f ft ih =>
    simp only [List.map_cons]
    rw [buildTsMap_scenRows, ih]

theorem syncMaps_scen (scams : List (Nat × List (Nat × Int)))
    (fs : List (Nat → Int)) (hscams : scams.map Prod.snd = fs.map scenRows) :
    syncMaps scams = fs.map scenRows := by
  have h1 : syncMaps scams = (scams.map Prod.snd).map buildTsMap := by
    rw [syncMaps, List.map_map]
    rfl
  rw [h1, hscams, map_buildTsMap_scenRows]

/-- **C6**: on its success path the sync check computes, for each frame
number common to all cameras, the spread `max − min` of the per-camera
timestamps; it reports mean, max and 99th percentile of that spread,
flags exactly the frames whose spread exceeds the caller-supplied
threshold (`int(threshold_ms * 1e6)` ns), and returns the PASS verdict
(`EXIT_OK`) iff zero frames are flagged, else `EXIT_FAIL`.  Moreover, in
the scenario of four cameras sharing the 300 frames `0..299`, of which
exactly one frame `j` has a 5 ms spread and every other frame has spread
at most 200 µs, the check at threshold 1 ms flags exactly the one frame
`j` and returns FAIL, while at threshold 10 ms it flags nothing and
returns PASS. -/
theorem sync_check_spread_report
    (cams : List (Nat × List (Nat × Int))) (threshold_ms : ℚ) (r : SyncReport)
    (scams : List (Nat × List (Nat × Int))) (fs : List (Nat → Int)) (j : Nat)
    (hok : cmd_sync_check cams threshold_ms = .ok r)
    (hscams : scams.map Prod.snd = fs.map scenRows)
    (hlen : fs.length = 4) (hj : j < 300)
    (hbig : scenSpread fs j = 5000000)
    (hsmall : ∀ k, k < 300 → k ≠ j → scenSpread fs k ≤ 200000) :
    (r.violations = ((commonFrames (syncMaps cams)).map
        fun k => (k, spreadAt (syncMaps cams) k)).filter
        fun kv => pyTrunc (threshold_ms * 1000000) < kv.2) ∧
    r.mean = ((syncDiffs cams).foldl (· + ·) 0 : ℚ) / ((syncDiffs cams).length : ℚ) ∧
    r.maxDiff = listMax (syncDiffs cams) ∧
    r.p99 = (sortInt (syncDiffs cams)).getD
        (min ((syncDiffs cams).length * 99 / 100) ((syncDiffs cams).length - 1)) 0 ∧
    (r.exitCode = EXIT_OK ↔ r.violations = []) ∧
    (cmd_sync_check scams 1).isOk = true ∧
    (∀ r1, cmd_sync_check scams 1 = .ok r1 →
        r1.violations = [(j, 5000000)] ∧ r1.exitCode = EXIT_FAIL) ∧
    (cmd_sync_check scams 10).isOk = true ∧
    (∀ r10, cmd_sync_check scams 10 = .ok r10 →
        r10.violations = [] ∧ r10.exitCode = EXIT_OK) := by
  obtain ⟨hv, hm, hx, hp, hiff, _⟩ := sync_check_ok_spec cams threshold_ms r hok
  have hfs_ne : fs ≠ [] := by
    intro hc
    rw [hc] at hlen
    cases hlen
  have hmaps : syncMaps scams = fs.map scenRows := syncMaps_scen scams fs hscams
  have hcommon : commonFrames (syncMaps scams) = List.range 300 := by
    rw [hmaps]
    exact commonFrames_scen fs hfs_ne
  have hspread : ∀ k, k < 300 → spreadAt (syncMaps scams) k = scenSpread fs k := by
    intro k hk
    rw [hmaps]
    exact spreadAt_scen fs k hk
  have hlen2 : ¬ scams.length < 2 := by
    have h1 : scams.length = 4 := by
      have h2 := congrArg List.length hscams
      simpa [hlen] using h2
    omega
  have hisok : ∀ th : ℚ, (cmd_sync_check scams th).isOk = true := by
    intro th
    simp only [cmd_sync_check]
    rw [if_neg hlen2]
    have hce : commonFrames (scams.map fun c => buildTsMap c.2) = List.range 300 :=
      hcommon
    rw [hce, if_neg (by simp [List.isEmpty_iff, List.range_eq_nil])]
    rfl
  have hmapc : ((List.range 300).map fun k => (k, spreadAt (syncMaps scams) k)) =
      (List.range 300).map fun k => (k, scenSpread fs k) :=
    List.map_congr_left fun k hk => by rw [hspread k (List.mem_range.mp hk)]
  have h1ms : ∀ r1, cmd_sync_check scams 1 = .ok r1 →
      r1.violations = [(j, 5000000)] ∧ r1.exitCode = EXIT_FAIL := by
    intro r1 hok1
    obtain ⟨hv1, _, _, _, hiff1, hor1⟩ := sync_check_ok_spec scams 1 r1 hok1
    rw [hcommon, hmapc, pyTrunc_one_ms, List.filter_map] at hv1
    have hfil : ((List.range 300).filter
        ((fun kv : Nat × Int => decide (1000000 < kv.2)) ∘
          fun k => (k, scenSpread fs k))) = [j] := by
      refine filter_eq_singleton_of_iff _ j (List.range 300)
        (List.nodup_range 300) (List.mem_range.mpr hj) ?_
      intro k hk
      constructor
      · intro hpk
        by_contra hne
        have hle := hsmall k (List.mem_range.mp hk) hne
        have hlt : (1000000 : Int) < scenSpread fs k := of_decide_eq_true hpk
        omega
      · intro hkj
        subst hkj
        exact decide_eq_true (show (1000000 : Int) < scenSpread fs k by
          rw [hbig]; decide)
    rw [hfil] at hv1
    have hv1' : r1.violations = [(j, 5000000)] := by
      rw [hv1, List.map_cons, List.map_nil, hbig]
    refine ⟨hv1', ?_⟩
    rcases hor1 with hok0 | hfail
    · exact absurd (hiff1.mp hok0) (by rw [hv1']; simp)
    · exact hfail
  have h10ms : ∀ r10, cmd_sync_check scams 10 = .ok r10 →
      r10.violations = [] ∧ r10.exitCode = EXIT_OK := by
    intro r10 hok10
    obtain ⟨hv10, _, _, _, hiff10, _⟩ := sync_check_ok_spec scams 10 r10 hok10
    rw [hcommon, hmapc, pyTrunc_ten_ms] at hv10
    have hnil : (((List.range 300).map fun k => (k, scenSpread fs k)).filter
        fun kv => decide (10000000 < kv.2)) = [] := by
      rw [List.filter_eq_nil_iff]
      intro kv hkv hpk
      obtain ⟨k, hk, rfl⟩ := List.mem_map.mp hkv
      have hlt : (10000000 : Int) < scenSpread fs k := of_decide_eq_true hpk
      by_cases hkj : k = j
      · subst hkj
        rw [hbig] at hlt
        exact absurd hlt (by decide)
      · have hle := hsmall k (List.mem_range.mp hk) hkj
        omega
    rw [hnil] at hv10
    exact ⟨hv10, hiff10.mpr hv10⟩
  exact ⟨hv, hm, hx, hp, hiff, hisok 1, h1ms, hisok 10, h10ms⟩

/-- C6 witness scenario: camera 0's timestamp function is 5 ms late on
frame 137 and zero elsewhere. -/
def c6f : Nat → Int := fun k => if k = 137 then 5000000 else 0

/-- C6 witness scenario: all-zero timestamp function. -/
def c6z : Nat → Int := fun _ => 0

/-- The four per-camera timestamp functions of the C6 witness. -/
def c6fs : List (Nat → Int) := [c6f, c6z, c6z, c6z]

/-- The four cameras of the C6 witness scenario, each with the 300
frames `0..299`. -/
def c6scams : List (Nat × List (Nat × Int)) :=
  [(1, scenRows c6f), (2, scenRows c6z), (3, scenRows c6z), (4, scenRows c6z)]

/-- A small two-camera session exercising the success path directly. -/
def c6cams : List (Nat × List (Nat × Int)) := [(1, [(0, 5)]), (2, [(0, 7)])]

/-- The report `cmd_sync_check c6cams 1` produces: one common frame with
spread 2 ns, nothing flagged, PASS. -/
def c6rep : SyncReport :=
  { mean := 2, maxDiff := 2, p99 := 2, violations := [], exitCode := 0 }

/-- Witness for the C6 theorem at the concrete inputs `c6cams`, `c6rep`,
`c6scams`, `c6fs` and outlier frame 137. -/
theorem sync_check_spread_report_witness :
    cmd_sync_check c6cams 1 = .ok c6rep ∧
    c6scams.map Prod.snd = c6fs.map scenRows ∧
    c6fs.length = 4 ∧
    137 < 300 ∧
    scenSpread c6fs 137 = 5000000 ∧
    (∀ k, k < 300 → k ≠ 137 → scenSpread c6fs k ≤ 200000) ∧
    ((c6rep.violations = ((commonFrames (syncMaps c6cams)).map
        fun k => (k, spreadAt (syncMaps c6cams) k)).filter
        fun kv => pyTrunc ((1 : ℚ) * 1000000) < kv.2) ∧
     c6rep.mean = ((syncDiffs c6cams).foldl (· + ·) 0 : ℚ) /
        ((syncDiffs c6cams).length : ℚ) ∧
     c6rep.maxDiff = listMax (syncDiffs c6cams) ∧
     c6rep.p99 = (sortInt (syncDiffs c6cams)).getD
        (min ((syncDiffs c6cams).length * 99 / 100)
          ((syncDiffs c6cams).length - 1)) 0 ∧
     (c6rep.exitCode = EXIT_OK ↔ c6rep.violations = []) ∧
     (cmd_sync_check c6scams 1).isOk = true ∧
     (∀ r1, cmd_sync_check c6scams 1 = .ok r1 →
        r1.violations = [(137, 5000000)] ∧ r1.exitCode = EXIT_FAIL) ∧
     (cmd_sync_check c6scams 10).isOk = true ∧
     (∀ r10, cmd_sync_check c6scams 10 = .ok r10 →
        r10.violations = [] ∧ r10.exitCode = EXIT_OK)) :=
  have h1 : cmd_sync_check c6cams 1 = .ok c6rep := by
    simp [cmd_sync_check, pyTrunc_one_ms, pyTrunc_e6, c6cams, c6rep, buildTsMap,
      dictInsert, commonFrames, sortNat, insertSorted, sortInt, insertSortedInt,
      spreadAt, listMax, listMin, EXIT_OK, List.lookup, max_def, min_def]
  have h2 : c6scams.map Prod.snd = c6fs.map scenRows := rfl
  have h3 : c6fs.length = 4 := rfl
  have h4 : 137 < 300 := by decide
  have h5 : scenSpread c6fs 137 = 5000000 := by decide
  have h6 : ∀ k, k < 300 → k ≠ 137 → scenSpread c6fs k ≤ 200000 := by
    intro k _ hne
    simp [scenSpread, c6fs, c6f, c6z, listMax, listMin, hne]
  ⟨h1, h2, h3, h4, h5, h6,
    sync_check_spread_report c6cams 1 c6rep c6scams c6fs 137 h1 h2 h3 h4 h5 h6⟩

/-! ## C7: frame iteration and truncated payloads

`iter_frame_infos` never raises: it stops as soon as fewer than 24 bytes
remain, wherever that happens.  A frame whose payload extends past the
end of the file is still yielded (the `f.seek(payload_size)` past
end-of-file succeeds silently), and the following header read, seeing
fewer than 24 bytes, ends the iteration exactly as at a clean
end-of-file.  Only `read_frame_payload`, which actually reads the
payload bytes, raises the distinct "Unexpected EOF reading payload"
error on a short payload. -/

theorem read_frame_header_short {bs : List Nat} (h : bs.length < 24) :
    read_frame_header bs = none := by
  rw [read_frame_header, if_pos h]

theorem iter_frame_infos_of_none (off : Nat) {bs : List Nat}
    (h : read_frame_header bs = none) : iter_frame_infos off bs = [] := by
  rw [iter_frame_infos]
  split
  · rfl
  · rename_i fh rest heq
    rw [h] at heq
    exact absurd heq (by simp)

theorem iter_frame_infos_of_some (off : Nat) {bs : List Nat} {fh : FrameHeader}
    {rest : List Nat} (h : read_frame_header bs = some (fh, rest)) :
    iter_frame_infos off bs =
      ⟨fh.frame_index, fh.timestamp_ns, fh.payload_size, off⟩ ::
        iter_frame_infos (off + 24 + fh.payload_size) (rest.drop fh.payload_size) := by
  rw [iter_frame_infos]
  split
  · rename_i heq
    rw [h] at heq
    exact absurd heq (by simp)
  · rename_i fh' rest' heq
    rw [h] at heq
    simp only [Option.some.injEq, Prod.mk.injEq] at heq
    obtain ⟨h1, h2⟩ := heq
    subst h1
    subst h2
    rfl

/-- A well-formed one-frame stream: a header claiming a 100-byte payload
followed by all 100 payload bytes. -/
def c7full : List Nat := write_frame_header 100 0 0 ++ List.replicate 100 0

/-- The same stream truncated in the middle of the payload: only 10 of
the 100 claimed payload bytes remain after the header. -/
def c7cut : List Nat := write_frame_header 100 0 0 ++ List.replicate 10 0

/-- The frame header both streams carry. -/
def c7fh : FrameHeader := ⟨FRAM_MAGIC, 100, 0, 0⟩

/-- **C7 counterexample**: `c7cut` is `c7full` truncated in the middle of
its 100-byte payload — `read_frame_payload`, which really reads the
bytes, accepts `c7full` and raises the EOF error on `c7cut` — yet frame
iteration (`iter_frame_infos`) returns the identical, error-free frame
listing for both streams: a short read mid-payload is indistinguishable
from the normal end of stream, and the truncated frame is even yielded. -/
theorem short_payload_silent_end_cex :
    read_frame_payload 0 c7full = .ok (c7fh, List.replicate 100 0) ∧
    read_frame_payload 0 c7cut = .error "Unexpected EOF reading payload" ∧
    iter_frame_infos 40 c7cut = iter_frame_infos 40 c7full ∧
    iter_frame_infos 40 c7cut = [⟨0, 0, 100, 40⟩] := by
  have hh1 : read_frame_header c7cut = some (c7fh, List.replicate 10 0) := by decide
  have hh2 : read_frame_header c7full = some (c7fh, List.replicate 100 0) := by decide
  have hnone : read_frame_header ([] : List Nat) = none := by decide
  have e1 : iter_frame_infos 40 c7cut = [⟨0, 0, 100, 40⟩] := by
    have hnil : (List.replicate 10 (0 : Nat)).drop c7fh.payload_size = [] := by decide
    rw [iter_frame_infos_of_some 40 hh1, hnil, iter_frame_infos_of_none _ hnone]
    decide
  have e2 : iter_frame_infos 40 c7full = [⟨0, 0, 100, 40⟩] := by
    have hnil : (List.replicate 100 (0 : Nat)).drop c7fh.payload_size = [] := by decide
    rw [iter_frame_infos_of_some 40 hh2, hnil, iter_frame_infos_of_none _ hnone]
    decide
  refine ⟨rfl, rfl, ?_, e1⟩
  rw [e1, e2]

/-- **C7** (corrected): frame iteration never surfaces an error.  If the
stream holds one full 24-byte header whose payload is truncated
(`rest.length < payload_size`), `iter_frame_infos` still yields that
frame and then terminates silently, exactly as at a clean end-of-file;
any tail shorter than a header — at a frame boundary or not — is the
same silent end of iteration.  The distinct "Unexpected EOF reading
payload" error is raised only by `read_frame_payload`, which actually
reads the payload bytes. -/
theorem frame_iteration_truncation (off koff : Nat) (bs tl : List Nat)
    (fh : FrameHeader) (rest : List Nat)
    (hh : read_frame_header bs = some (fh, rest))
    (hcut : rest.length < fh.payload_size)
    (htl : tl.length < 24) :
    iter_frame_infos off bs =
      [⟨fh.frame_index, fh.timestamp_ns, fh.payload_size, off⟩] ∧
    read_frame_payload 0 bs = .error "Unexpected EOF reading payload" ∧
    iter_frame_infos koff tl = [] := by
  refine ⟨?_, ?_, ?_⟩
  · have hnone : read_frame_header ([] : List Nat) = none :=
      read_frame_header_short (by decide)
    rw [iter_frame_infos_of_some off hh,
      List.drop_eq_nil_of_le (le_of_lt hcut),
      iter_frame_infos_of_none _ hnone]
  · have hc : (rest.take fh.payload_size).length < fh.payload_size := by
      rw [List.length_take]
      omega
    simp only [read_frame_payload, hh, if_pos hc]
  · exact iter_frame_infos_of_none koff (read_frame_header_short htl)

/-- Witness for the corrected C7 theorem on the concrete truncated
stream `c7cut` (10 of 100 payload bytes present) and the 10-byte
mid-payload tail. -/
theorem frame_iteration_truncation_witness :
    read_frame_header c7cut = some (c7fh, List.replicate 10 0) ∧
    (List.replicate 10 (0 : Nat)).length < c7fh.payload_size ∧
    (List.replicate 10 (0 : Nat)).length < 24 ∧
    (iter_frame_infos 40 c7cut = [⟨0, 0, 100, 40⟩] ∧
     read_frame_payload 0 c7cut = .error "Unexpected EOF reading payload" ∧
     iter_frame_infos 77 (List.replicate 10 0) = []) :=
  have hh : read_frame_header c7cut = some (c7fh, List.replicate 10 0) := by decide
  have hcut : (List.replicate 10 (0 : Nat)).length < c7fh.payload_size := by decide
  have htl : (List.replicate 10 (0 : Nat)).length < 24 := by decide
  ⟨hh, hcut, htl, frame_iteration_truncation 40 77 c7cut (List.replicate 10 0) c7fh
    (List.replicate 10 0) hh hcut htl⟩

end SynchroCap
